import Mathlib

/-!
# Metrics collector and asynchronous writer (`src/project/metrics.h`)

A shallow embedding of `TypedMetricValue<T>`, `MetricsCollector` and
`AsyncMetricsWriter`, followed by theorems about them.

Modelling conventions
* `std::string` is a `String`; every `Char` stands for one `char` of the
  C++ string, and names are compared by `List Char` lexicographic order on
  the characters, as `std::string::operator<` does.
* `std::unordered_map` is an association list; the list order stands for the
  (unspecified) iteration order of the map, keys occur at most once
  (`MetricsCollector.WF`).
* Mutexes are not modelled: every locked block is one atomic step.
* What the standard library and the operating system decide is an input:
  the text `operator<<` produces for a `double`, the tick length of
  `steady_clock`, whether `std::ofstream` opens, and the local time
  `std::put_time` prints.
* A `throw` is a result value next to the state the call leaves behind.
* The loop of `run()` runs over a list of returns of `wait_for`, each with
  what other threads did during the wait.
* For the locks, a function is the list of its lock, unlock, wait, map and
  file steps, in program order.
-/

namespace Metrics

/-! ## Payloads -/

/-- A C++ `double`, as its IEEE-754 binary64 bit pattern. -/
structure Double where
  bits : Nat
  deriving DecidableEq, Repr

/-- What the platform supplies: the text `std::ostream::operator<<` writes
for a `double`, and the number of `steady_clock` ticks in a millisecond. -/
structure Platform where
  fmtDouble : Double → String
  ticksPerMs : Int

/-- The template arguments `T` that `record<T>` is instantiated with:
`double`, `int`, `std::string`, and `const char*` (what a string literal
argument is deduced as). -/
inductive PayloadType where
  | double
  | int
  | string
  | cstr
  deriving DecidableEq, Repr

/-- A value of one of the payload types. A `const char*` is represented by
the characters it points at. -/
inductive Payload where
  | double (d : Double)
  | int (n : Int)
  | string (s : String)
  | cstr (s : String)
  deriving DecidableEq, Repr

/-- The static type `T` of a payload. -/
def Payload.type : Payload → PayloadType
  | .double _ => .double
  | .int _ => .int
  | .string _ => .string
  | .cstr _ => .cstr

/-- Trait `is_string<T>`: `true_type` for `std::string` only (metrics.h:28-29). -/
def is_string : PayloadType → Bool
  | .string => true
  | _ => false

/-- Text of `oss << n` for an `int`: the decimal numeral, `-` first when negative. -/
def renderInt (n : Int) : String :=
  if n < 0 then "-" ++ Nat.repr n.natAbs else Nat.repr n.toNat

/-! ## `TypedMetricValue<T>` -/

/-- Class `TypedMetricValue<T>`: the fields `value_` and `valid_`
(metrics.h:65-66). The type `T` is the type of `value_`. -/
structure TypedMetricValue where
  value_ : Payload
  valid_ : Bool
  deriving DecidableEq, Repr

namespace TypedMetricValue

/-- Method `reset()` (metrics.h:37). -/
def reset (m : TypedMetricValue) : TypedMetricValue :=
  { m with valid_ := false }

/-- Method `hasValue()` (metrics.h:43). -/
def hasValue (m : TypedMetricValue) : Bool := m.valid_

/-- Method `clone()` (metrics.h:45-47): a new holder built from `value_, valid_`. -/
def clone (m : TypedMetricValue) : TypedMetricValue :=
  { value_ := m.value_, valid_ := m.valid_ }

/-- Method `setValue(value)` (metrics.h:49-52). -/
def setValue (m : TypedMetricValue) (value : Payload) : TypedMetricValue :=
  { m with value_ := value, valid_ := true }

/-- Overload `toStringImpl(std::true_type)` (metrics.h:55-57), `value_` a
`std::string`. -/
def toStringImplTrue (s : String) : String :=
  "\"" ++ s ++ "\""

/-- Overload `toStringImpl(std::false_type)` (metrics.h:59-63): `oss << value_`. -/
def toStringImplFalse (P : Platform) : Payload → String
  | .double d => P.fmtDouble d
  | .int n => renderInt n
  | .string s => s
  | .cstr s => s

/-- Method `toString()` (metrics.h:39-41): `toStringImpl(is_string<T>::type())`.
The `true_type` overload is chosen for `T = std::string` only. -/
def toString (P : Platform) (m : TypedMetricValue) : String :=
  match is_string m.value_.type, m.value_ with
  | true, .string s => toStringImplTrue s
  | _, v => toStringImplFalse P v

end TypedMetricValue

/-! ## `MetricsCollector` -/

/-- Class `MetricsCollector`: the map `metrics_` (metrics.h:139). -/
structure MetricsCollector where
  metrics_ : List (String × TypedMetricValue)
  deriving DecidableEq, Repr

/-- The outcome of a `record` call: it returns, or it throws
`std::runtime_error(what)`. -/
inductive RecordResult where
  | ok
  | error (what : String)
  deriving DecidableEq, Repr

/-- Lookup `metrics_.find(name)`: the holder stored under `name`, if any. -/
def findEntry (name : String) :
    List (String × TypedMetricValue) → Option TypedMetricValue
  | [] => none
  | (k, h) :: rest => if k = name then some h else findEntry name rest

/-- Replace the holder stored under `name` (writing through `it->second`). -/
def assignEntry (name : String) (h' : TypedMetricValue) :
    List (String × TypedMetricValue) → List (String × TypedMetricValue)
  | [] => []
  | (k, h) :: rest =>
    if k = name then (k, h') :: rest else (k, h) :: assignEntry name h' rest

namespace MetricsCollector

/-- Keys of the map occur once. -/
def WF (c : MetricsCollector) : Prop := (c.metrics_.map Prod.fst).Nodup

instance (c : MetricsCollector) : Decidable c.WF := by
  unfold WF; infer_instance

/-- The holder under `name`. -/
def find (c : MetricsCollector) (name : String) : Option TypedMetricValue :=
  findEntry name c.metrics_

/-- The payload type `name` is bound to, if it is in the map. -/
def boundType (c : MetricsCollector) (name : String) : Option PayloadType :=
  (c.find name).map fun h => h.value_.type

/-- Method `record<T>(name, value)` (metrics.h:71-87). A new name gets a holder
`TypedMetricValue<T>(value, true)`; for a known name the `dynamic_cast` to
`TypedMetricValue<T>*` succeeds exactly when the holder has payload type
`T`, then `setValue`; otherwise the call throws. The second component is
the collector after the call. A new entry is put last in the iteration
order; where a real map puts it is unspecified, and what a flush writes
does not depend on it (`sortByName_congr`). -/
def record (c : MetricsCollector) (name : String) (value : Payload) :
    RecordResult × MetricsCollector :=
  match findEntry name c.metrics_ with
  | none => (.ok, { metrics_ := c.metrics_ ++ [(name, { value_ := value, valid_ := true })] })
  | some held =>
    if held.value_.type = value.type then
      (.ok, { metrics_ := assignEntry name (held.setValue value) c.metrics_ })
    else
      (.error ("Type mismatch for metric " ++ name), c)

end MetricsCollector

/-- The locked block of `flushToFile` (metrics.h:93-101): walk the map in
iteration order; an entry with `hasValue()` is cloned into the snapshot and
then reset. Returns the snapshot and the map after the loop. -/
def snapshotLoop : List (String × TypedMetricValue) →
    List (String × TypedMetricValue) × List (String × TypedMetricValue)
  | [] => ([], [])
  | (name, h) :: rest =>
    if h.hasValue then
      ((name, h.clone) :: (snapshotLoop rest).1, (name, h.reset) :: (snapshotLoop rest).2)
    else
      ((snapshotLoop rest).1, (name, h) :: (snapshotLoop rest).2)

/-- The comparator passed to `std::sort` (metrics.h:125-128):
`a.first < b.first`. -/
def nameLess (a b : String × TypedMetricValue) : Bool :=
  decide (a.1.toList < b.1.toList)

/-- Insert `x` before the first element it is less than. -/
def insertByName (x : String × TypedMetricValue) :
    List (String × TypedMetricValue) → List (String × TypedMetricValue)
  | [] => [x]
  | y :: ys => if nameLess x y then x :: y :: ys else y :: insertByName x ys

/-- The call `std::sort(snapshot.begin(), snapshot.end(), comp)` (metrics.h:124-128),
as an insertion sort that consults only the comparator. The names of a
snapshot are distinct, so the order it produces is the only one that
`std::sort` can produce (`sortByName_unique`). -/
def sortByName : List (String × TypedMetricValue) → List (String × TypedMetricValue)
  | [] => []
  | x :: xs => insertByName x (sortByName xs)

/-- The write loop (metrics.h:131-133): for each entry, a space, the quoted
name, a space and `toString()`. -/
def writeEntries (P : Platform) : List (String × TypedMetricValue) → String
  | [] => ""
  | (name, h) :: rest =>
    " \"" ++ name ++ "\" " ++ h.toString P ++ writeEntries P rest

/-- What one flush observes of its surroundings: whether
`std::ofstream file(filename, std::ios_base::app)` opens, and the text
`std::put_time(&tm_struct, "%Y-%m-%d %H:%M:%S")` writes. -/
structure FlushEnv where
  opens : Bool
  stamp : String
  deriving DecidableEq, Repr

/-- Everything `flushToFile` writes to the stream (metrics.h:121-135): the
timestamp, the sorted entries, `std::endl`. -/
def lineText (P : Platform) (stamp : String)
    (snapshot : List (String × TypedMetricValue)) : String :=
  stamp ++ writeEntries P (sortByName snapshot) ++ "\n"

namespace MetricsCollector

/-- Method `flushToFile(filename)` (metrics.h:89-136). The log file is `none` when
it does not exist, else its content. Returns the collector and the file
after the call. -/
def flushToFile (P : Platform) (env : FlushEnv) (c : MetricsCollector)
    (file : Option String) : MetricsCollector × Option String :=
  let snapshot := (snapshotLoop c.metrics_).1
  let c' : MetricsCollector := { metrics_ := (snapshotLoop c.metrics_).2 }
  if snapshot.isEmpty then (c', file)
  else if !env.opens then (c', file)
  else (c', some (file.getD "" ++ lineText P env.stamp snapshot))

end MetricsCollector

/-! ## `AsyncMetricsWriter` -/

/-- Class `AsyncMetricsWriter` (metrics.h:185-193), with the local `lastFlush` of
`run()` kept as a field. Times are `steady_clock` ticks. -/
structure AsyncMetricsWriter where
  collector_ : MetricsCollector
  flushIntervalMs_ : Int
  running_ : Bool
  scheduledFlush_ : Bool
  lastFlush : Int
  deriving DecidableEq, Repr

namespace AsyncMetricsWriter

/-- Method `record<T>(name, value)` (metrics.h:158-164): `collector_.record`; when
that throws the exception leaves the function, otherwise
`scheduledFlush_ = true`. -/
def record (w : AsyncMetricsWriter) (name : String) (value : Payload) :
    RecordResult × AsyncMetricsWriter :=
  match w.collector_.record name value with
  | (.error what, c) => (.error what, { w with collector_ := c })
  | (.ok, c) => (.ok, { w with collector_ := c, scheduledFlush_ := true })

/-- The body of the loop in `run()` after `wait_for` has returned at time
`now` (metrics.h:176-181). -/
def wake (P : Platform) (now : Int) (env : FlushEnv)
    (s : AsyncMetricsWriter × Option String) : AsyncMetricsWriter × Option String :=
  if s.1.scheduledFlush_ || decide (now - s.1.lastFlush ≥ s.1.flushIntervalMs_ * P.ticksPerMs) then
    let r := s.1.collector_.flushToFile P env s.2
    ({ s.1 with collector_ := r.1, lastFlush := now, scheduledFlush_ := false }, r.2)
  else s

/-- One thing that happens to a running writer: a producer's `record`, or
the background thread waking at `now`. -/
inductive Event where
  | record (name : String) (value : Payload)
  | wake (now : Int) (env : FlushEnv)
  deriving DecidableEq, Repr

/-- Apply one event; `none` when a `record` throws. -/
def step (P : Platform) (s : AsyncMetricsWriter × Option String) :
    Event → Option (AsyncMetricsWriter × Option String)
  | .record name value =>
    match s.1.record name value with
    | (.ok, w) => some (w, s.2)
    | (.error _, _) => none
  | .wake now env => some (wake P now env s)

/-- Apply events in order; `none` as soon as a `record` throws. -/
def runEvents (P : Platform) (s : AsyncMetricsWriter × Option String) :
    List Event → Option (AsyncMetricsWriter × Option String)
  | [] => some s
  | e :: es =>
    match step P s e with
    | some s' => runEvents P s' es
    | none => none

/-- Destructor `~AsyncMetricsWriter()` (metrics.h:151-156): `running_ = false`, the
background thread is joined after the wakes `joining` it still makes, then
`collector_.flushToFile(filename_)`. -/
def destructor (P : Platform) (joining : List (Int × FlushEnv)) (env : FlushEnv)
    (s : AsyncMetricsWriter × Option String) : AsyncMetricsWriter × Option String :=
  let s1 : AsyncMetricsWriter × Option String := ({ s.1 with running_ := false }, s.2)
  let s2 := joining.foldl (fun t j => wake P j.1 j.2 t) s1
  let r := s2.1.collector_.flushToFile P env s2.2
  ({ s2.1 with collector_ := r.1 }, r.2)

end AsyncMetricsWriter

/-! ## Sequences of collector operations -/

/-- An operation on a `MetricsCollector` and its log file. -/
inductive Op where
  | record (name : String) (value : Payload)
  | flush (env : FlushEnv)
  deriving DecidableEq, Repr

/-- Apply one operation. A `record` that throws leaves the collector as the
call left it. -/
def applyOp (P : Platform) (s : MetricsCollector × Option String) :
    Op → MetricsCollector × Option String
  | .record name value => ((s.1.record name value).2, s.2)
  | .flush env => s.1.flushToFile P env s.2

/-- Apply operations in order. -/
def applyOps (P : Platform) (s : MetricsCollector × Option String) :
    List Op → MetricsCollector × Option String
  | [] => s
  | op :: ops => applyOps P (applyOp P s op) ops

/-- No operation of `ops`, run from `s`, is a `record` on `name` that
returns normally. -/
def noRecordOn (P : Platform) (name : String) :
    MetricsCollector × Option String → List Op → Prop
  | _, [] => True
  | s, op :: ops =>
    (match op with
      | .record n v => n = name → (s.1.record n v).1 ≠ RecordResult.ok
      | .flush _ => True) ∧
    noRecordOn P name (applyOp P s op) ops

/-! ## Log contents -/

/-- The value of the last `record` event on `name` in `events`, if any. -/
def lastRecorded (name : String) : List AsyncMetricsWriter.Event → Option Payload
  | [] => none
  | e :: es =>
    match lastRecorded name es with
    | some v => some v
    | none =>
      match e with
      | .record n v => if n = name then some v else none
      | .wake _ _ => none

/-- The names of the `record` events of `events`, in order. -/
def recordNames : List AsyncMetricsWriter.Event → List String
  | [] => []
  | .record n _ :: es => n :: recordNames es
  | .wake _ _ :: es => recordNames es

/-- The file `f` consists of `base`, then some text, then a whole line
written by a flush whose snapshot holds `name` with the fresh value `v`,
then some text. -/
def Logged (P : Platform) (base : String) (name : String) (v : Payload)
    (f : Option String) : Prop :=
  ∃ (pre stamp : String) (snap : List (String × TypedMetricValue)) (post : String),
    f = some (base ++ pre ++ lineText P stamp snap ++ post) ∧
    (name, ({ value_ := v, valid_ := true } : TypedMetricValue)) ∈ snap

/-- The invariant carried through the events: the file extends `base`, and
`name` is either fresh in the collector with value `v` or already logged. -/
def Kept (P : Platform) (base name : String) (v : Payload)
    (c : MetricsCollector) (f : Option String) : Prop :=
  (∃ x : String, f.getD "" = base ++ x) ∧
  (c.find name = some { value_ := v, valid_ := true } ∨ Logged P base name v f)

/-! ## Reading a decimal numeral -/

/-- Whether `c` is one of the characters `0` to `9`. -/
def isDecimalDigit (c : Char) : Bool :=
  decide ('0'.toNat ≤ c.toNat) && decide (c.toNat ≤ '9'.toNat)

/-- The digit a decimal character stands for. -/
def digitValue (c : Char) : Nat := c.toNat - '0'.toNat

/-- The number a list of decimal characters denotes, most significant
digit first, continuing from `acc`. -/
def decimalValueAux (acc : Nat) : List Char → Nat
  | [] => acc
  | c :: cs => decimalValueAux (acc * 10 + digitValue c) cs

/-! ## The loop of `run()` -/

/-- What another thread does while the background thread is blocked in
`wait_for`: a producer's `AsyncMetricsWriter::record` (a throwing one
leaves the writer as the call left it), or the destructor's
`running_ = false` (metrics.h:152). -/
inductive Outside where
  | record (name : String) (value : Payload)
  | stop
  deriving DecidableEq, Repr

/-- One return of `wait_for`: what happened while the thread was blocked,
the time `steady_clock::now()` gives after it (metrics.h:176), and what a
flush made now would observe. The returns are not restricted to those
`wait_for` can make, so what holds for all of them holds for the real
ones. -/
structure Wait where
  during : List Outside
  now : Int
  env : FlushEnv
  deriving DecidableEq, Repr

namespace AsyncMetricsWriter

/-- The effect of one outside action on the writer. -/
def outside (s : AsyncMetricsWriter × Option String) :
    Outside → AsyncMetricsWriter × Option String
  | .record name value => ((s.1.record name value).2, s.2)
  | .stop => ({ s.1 with running_ := false }, s.2)

/-- The state the background thread finds when `wait_for` returns. -/
def atWake (wt : Wait) (s : AsyncMetricsWriter × Option String) :
    AsyncMetricsWriter × Option String :=
  wt.during.foldl outside s

/-- One pass through the body of `while (running_)` (metrics.h:170-181):
the wait, then the flush test. -/
def iteration (P : Platform) (wt : Wait) (s : AsyncMetricsWriter × Option String) :
    AsyncMetricsWriter × Option String :=
  wake P wt.now wt.env (atWake wt s)

/-- The loop `while (running_) { ... }` of `run()` (metrics.h:169-182) over
the given returns of `wait_for`; the state when the loop is left, or when
the returns are used up. -/
def runLoop (P : Platform) :
    List Wait → AsyncMetricsWriter × Option String → AsyncMetricsWriter × Option String
  | [], s => s
  | wt :: rest, s => if s.1.running_ then runLoop P rest (iteration P wt s) else s

/-- The function `run()` (metrics.h:167-183), started at time `start`. -/
def run (P : Platform) (start : Int) (waits : List Wait)
    (s : AsyncMetricsWriter × Option String) : AsyncMetricsWriter × Option String :=
  runLoop P waits ({ s.1 with lastFlush := start }, s.2)

end AsyncMetricsWriter

/-! ## Fresh pairs -/

/-- The (name, value) pairs of the holders with `hasValue()`. -/
def freshPairs (c : MetricsCollector) : List (String × Payload) :=
  (c.metrics_.filter (fun e => e.2.hasValue)).map (fun e => (e.1, e.2.value_))

/-! ## Lock scopes -/

/-- The two mutexes: `MetricsCollector::mutex_` (metrics.h:140) and
`AsyncMetricsWriter::mutex_` (metrics.h:191). -/
inductive Mutex where
  | collector
  | writer
  deriving DecidableEq, Repr

/-- What a thread does, as far as locks and the file are concerned. -/
inductive Step where
  | lock (m : Mutex)
  | unlock (m : Mutex)
  | waitOn (m : Mutex)
  | mapAccess
  | fileAccess
  | other
  deriving DecidableEq, Repr

/-- Steps of `MetricsCollector::record` (metrics.h:72-87): the `lock_guard`
spans the whole body. -/
def MetricsCollector.recordSteps : List Step :=
  [.lock .collector, .mapAccess, .unlock .collector]

/-- Steps of `flushToFile` (metrics.h:89-136): the `lock_guard` lives in the
block of the snapshot loop; then, for a non-empty snapshot, the file is
opened, and when that succeeds the timestamp is written, the snapshot is
sorted, the entries and `std::endl` are written. -/
def MetricsCollector.flushSteps (nonEmpty opens : Bool) : List Step :=
  [.lock .collector, .mapAccess, .unlock .collector] ++
    (if nonEmpty then
      Step.fileAccess ::
        (if opens then [.other, .fileAccess, .other, .fileAccess, .fileAccess] else [])
     else [])

/-- Steps of `AsyncMetricsWriter::record` (metrics.h:159-164), the inner
`record` returning: `collector_.record`, then a `lock_guard` on the
writer's mutex around the flag and the notify. -/
def AsyncMetricsWriter.recordSteps : List Step :=
  MetricsCollector.recordSteps ++ [.lock .writer, .other, .other, .unlock .writer]

/-- Steps of one pass through the loop of `run()` (metrics.h:170-182): the
`unique_lock` is taken at the top of the body and released at its end;
`wait_for` gives the mutex up while blocked; `flushToFile` is called inside
the body. -/
def AsyncMetricsWriter.iterationSteps (flushes nonEmpty opens : Bool) : List Step :=
  [.lock .writer, .waitOn .writer, .other] ++
    (if flushes then MetricsCollector.flushSteps nonEmpty opens ++ [.other, .other] else []) ++
    [.unlock .writer]

/-- Pair every step with the mutexes its thread holds while doing it,
starting with `held`. While blocked in a wait the thread does not hold the
mutex it waits on. -/
def heldDuring : List Mutex → List Step → List (Step × List Mutex)
  | _, [] => []
  | held, .lock m :: rest => (.lock m, held) :: heldDuring (m :: held) rest
  | held, .unlock m :: rest => (.unlock m, held) :: heldDuring (held.erase m) rest
  | held, .waitOn m :: rest => (.waitOn m, held.erase m) :: heldDuring held rest
  | held, st :: rest => (st, held) :: heldDuring held rest

/-- The mutexes a sequence of steps locks. -/
def locksTaken : List Step → List Mutex
  | [] => []
  | .lock m :: rest => m :: locksTaken rest
  | _ :: rest => locksTaken rest

/-! ## Lemmas on the map -/

theorem findEntry_append (name : String) (l₁ l₂ : List (String × TypedMetricValue)) :
    findEntry name (l₁ ++ l₂) =
      match findEntry name l₁ with
      | some h => some h
      | none => findEntry name l₂ := by
  induction l₁ with
  | nil => simp [findEntry]
  | cons e rest ih =>
    obtain ⟨k, h⟩ := e
    by_cases hk : k = name <;> simp [findEntry, hk, ih]

theorem findEntry_assignEntry_self (name : String) (h' : TypedMetricValue)
    (l : List (String × TypedMetricValue)) (hl : (findEntry name l).isSome) :
    findEntry name (assignEntry name h' l) = some h' := by
  induction l with
  | nil => simp [findEntry] at hl
  | cons e rest ih =>
    obtain ⟨k, h⟩ := e
    by_cases hk : k = name
    · simp [findEntry, assignEntry, hk]
    · simp [findEntry, hk] at hl
      simp [findEntry, assignEntry, hk, ih hl]

theorem findEntry_assignEntry_ne (name n : String) (h' : TypedMetricValue)
    (l : List (String × TypedMetricValue)) (hn : n ≠ name) :
    findEntry n (assignEntry name h' l) = findEntry n l := by
  induction l with
  | nil => simp [assignEntry]
  | cons e rest ih =>
    obtain ⟨k, h⟩ := e
    by_cases hk : k = name
    · have : ¬ k = n := by rw [hk]; exact fun h => hn h.symm
      simp [findEntry, assignEntry, hk, this]
      subst hk
      simp [findEntry, this]
    · by_cases hkn : k = n
      · subst hkn
        simp [findEntry, assignEntry, hk]
      · simp [findEntry, assignEntry, hk, hkn, ih]

theorem filter_assignEntry (name : String) (h' : TypedMetricValue)
    (l : List (String × TypedMetricValue)) :
    (assignEntry name h' l).filter (fun e => decide (e.1 ≠ name)) =
      l.filter (fun e => decide (e.1 ≠ name)) := by
  induction l with
  | nil => simp [assignEntry]
  | cons e rest ih =>
    obtain ⟨k, h⟩ := e
    by_cases hk : k = name
    · simp [assignEntry, hk]
    · simp only [assignEntry, hk, if_false, List.filter_cons, ih]

theorem map_fst_assignEntry (name : String) (h' : TypedMetricValue)
    (l : List (String × TypedMetricValue)) :
    (assignEntry name h' l).map Prod.fst = l.map Prod.fst := by
  induction l with
  | nil => simp [assignEntry]
  | cons e rest ih =>
    obtain ⟨k, h⟩ := e
    by_cases hk : k = name <;> simp [assignEntry, hk, ih]

theorem findEntry_eq_none_iff (name : String) (l : List (String × TypedMetricValue)) :
    findEntry name l = none ↔ name ∉ l.map Prod.fst := by
  induction l with
  | nil => simp [findEntry]
  | cons e rest ih =>
    obtain ⟨k, h⟩ := e
    by_cases hk : k = name
    · simp [findEntry, hk]
    · have : ¬ name = k := fun h => hk h.symm
      simp [findEntry, hk, this, ih]

theorem findEntry_mem (name : String) (h : TypedMetricValue)
    (l : List (String × TypedMetricValue)) (hf : findEntry name l = some h) :
    (name, h) ∈ l := by
  induction l with
  | nil => simp [findEntry] at hf
  | cons e rest ih =>
    obtain ⟨k, h0⟩ := e
    by_cases hk : k = name
    · simp [findEntry, hk] at hf
      simp [hk, hf]
    · simp [findEntry, hk] at hf
      exact List.mem_cons_of_mem _ (ih hf)

namespace MetricsCollector

theorem record_fst (c : MetricsCollector) (name : String) (v : Payload) :
    (c.record name v).1 =
      match c.boundType name with
      | none => RecordResult.ok
      | some t => if t = v.type then RecordResult.ok
                  else RecordResult.error ("Type mismatch for metric " ++ name) := by
  unfold record boundType find
  cases hf : findEntry name c.metrics_ with
  | none => simp
  | some held =>
    by_cases ht : held.value_.type = v.type <;> simp [ht]

theorem record_error_snd (c : MetricsCollector) (name : String) (v : Payload) (what : String)
    (h : (c.record name v).1 = RecordResult.error what) : (c.record name v).2 = c := by
  unfold record at h ⊢
  cases hf : findEntry name c.metrics_ with
  | none => simp [hf] at h
  | some held =>
    by_cases ht : held.value_.type = v.type
    · simp [hf, ht] at h
    · simp [ht]

theorem record_find_self (c : MetricsCollector) (name : String) (v : Payload)
    (h : (c.record name v).1 = RecordResult.ok) :
    (c.record name v).2.find name = some { value_ := v, valid_ := true } := by
  unfold record at h ⊢
  unfold find
  cases hf : findEntry name c.metrics_ with
  | none => simp [findEntry_append, hf, findEntry]
  | some held =>
    by_cases ht : held.value_.type = v.type
    · simp [ht]
      rw [findEntry_assignEntry_self _ _ _ (by simp [hf])]
      rfl
    · simp [hf, ht] at h

theorem record_find_ne (c : MetricsCollector) (name n : String) (v : Payload)
    (hn : n ≠ name) : (c.record name v).2.find n = c.find n := by
  unfold record find
  cases hf : findEntry name c.metrics_ with
  | none =>
    have : ¬ name = n := fun h => hn h.symm
    simp only [findEntry_append]
    cases findEntry n c.metrics_ <;> simp [findEntry, this]
  | some held =>
    by_cases ht : held.value_.type = v.type
    · simp [ht, findEntry_assignEntry_ne _ _ _ _ hn]
    · simp [ht]

theorem record_filter_ne (c : MetricsCollector) (name : String) (v : Payload) :
    (c.record name v).2.metrics_.filter (fun e => decide (e.1 ≠ name)) =
      c.metrics_.filter (fun e => decide (e.1 ≠ name)) := by
  unfold record
  cases hf : findEntry name c.metrics_ with
  | none => simp
  | some held =>
    by_cases ht : held.value_.type = v.type
    · simp only [ht, if_true, filter_assignEntry]
    · simp [ht]

theorem record_WF (c : MetricsCollector) (name : String) (v : Payload) (hc : c.WF) :
    (c.record name v).2.WF := by
  unfold record
  cases hf : findEntry name c.metrics_ with
  | none =>
    have hn := (findEntry_eq_none_iff name c.metrics_).1 hf
    simp only [WF, List.map_append, List.map_cons, List.map_nil]
    rw [List.nodup_append]
    refine ⟨hc, by simp, ?_⟩
    intro a ha hb
    simp at hb
    subst hb
    exact hn ha
  | some held =>
    by_cases ht : held.value_.type = v.type
    · simp only [ht, if_true, WF, map_fst_assignEntry]
      exact hc
    · simpa [ht] using hc

end MetricsCollector

theorem clone_eq (h : TypedMetricValue) : h.clone = h := rfl

theorem reset_of_not_valid (h : TypedMetricValue) (hv : h.hasValue = false) : h.reset = h := by
  cases h
  simp only [TypedMetricValue.hasValue] at hv
  simp [TypedMetricValue.reset, hv]

theorem snapshotLoop_fst (l : List (String × TypedMetricValue)) :
    (snapshotLoop l).1 = l.filter (fun e => e.2.hasValue) := by
  induction l with
  | nil => rfl
  | cons e rest ih =>
    obtain ⟨k, h⟩ := e
    by_cases hv : h.hasValue = true
    · simp [snapshotLoop, hv, ih, clone_eq]
    · simp [snapshotLoop, hv, ih]

theorem snapshotLoop_snd (l : List (String × TypedMetricValue)) :
    (snapshotLoop l).2 = l.map (fun e => (e.1, e.2.reset)) := by
  induction l with
  | nil => rfl
  | cons e rest ih =>
    obtain ⟨k, h⟩ := e
    by_cases hv : h.hasValue = true
    · simp [snapshotLoop, hv, ih]
    · have hv' : h.hasValue = false := by simpa using hv
      simp [snapshotLoop, hv', ih, reset_of_not_valid h hv']

theorem findEntry_map_reset (name : String) (l : List (String × TypedMetricValue)) :
    findEntry name (l.map (fun e => (e.1, e.2.reset))) =
      (findEntry name l).map TypedMetricValue.reset := by
  induction l with
  | nil => rfl
  | cons e rest ih =>
    obtain ⟨k, h⟩ := e
    by_cases hk : k = name <;> simp [findEntry, hk, ih]

theorem findEntry_of_mem (name : String) (h : TypedMetricValue)
    (l : List (String × TypedMetricValue)) (hl : (l.map Prod.fst).Nodup)
    (hm : (name, h) ∈ l) : findEntry name l = some h := by
  induction l with
  | nil => simp at hm
  | cons e rest ih =>
    obtain ⟨k, h0⟩ := e
    simp only [List.map_cons, List.nodup_cons] at hl
    rcases List.mem_cons.1 hm with heq | hin
    · cases heq
      simp [findEntry]
    · have hk : ¬ k = name := by
        intro hk
        apply hl.1
        rw [hk]
        exact List.mem_map_of_mem Prod.fst hin
      simp [findEntry, hk, ih hl.2 hin]

namespace MetricsCollector

theorem flushToFile_fst (P : Platform) (env : FlushEnv) (c : MetricsCollector)
    (file : Option String) :
    (c.flushToFile P env file).1 =
      { metrics_ := c.metrics_.map (fun e => (e.1, e.2.reset)) } := by
  unfold flushToFile
  simp only [snapshotLoop_snd]
  split_ifs <;> rfl

theorem flushToFile_find (P : Platform) (env : FlushEnv) (c : MetricsCollector)
    (file : Option String) (name : String) :
    (c.flushToFile P env file).1.find name = (c.find name).map TypedMetricValue.reset := by
  rw [flushToFile_fst]
  exact findEntry_map_reset name c.metrics_

theorem flushToFile_boundType (P : Platform) (env : FlushEnv) (c : MetricsCollector)
    (file : Option String) (name : String) :
    (c.flushToFile P env file).1.boundType name = c.boundType name := by
  unfold boundType
  rw [flushToFile_find]
  cases c.find name <;> rfl

theorem flushToFile_WF (P : Platform) (env : FlushEnv) (c : MetricsCollector)
    (file : Option String) (hc : c.WF) : (c.flushToFile P env file).1.WF := by
  rw [flushToFile_fst]
  simpa [WF, List.map_map, Function.comp_def] using hc

end MetricsCollector

theorem applyOps_append (P : Platform) (s : MetricsCollector × Option String)
    (ops₁ ops₂ : List Op) :
    applyOps P s (ops₁ ++ ops₂) = applyOps P (applyOps P s ops₁) ops₂ := by
  induction ops₁ generalizing s with
  | nil => rfl
  | cons op rest ih => simp [applyOps, ih]

theorem applyOp_WF (P : Platform) (s : MetricsCollector × Option String) (op : Op)
    (hs : s.1.WF) : (applyOp P s op).1.WF := by
  cases op with
  | record n v => exact MetricsCollector.record_WF _ _ _ hs
  | flush env => exact MetricsCollector.flushToFile_WF _ _ _ _ hs

theorem applyOps_WF (P : Platform) (s : MetricsCollector × Option String) (ops : List Op)
    (hs : s.1.WF) : (applyOps P s ops).1.WF := by
  induction ops generalizing s with
  | nil => exact hs
  | cons op rest ih => exact ih _ (applyOp_WF P s op hs)

/-! ## C1 -/

/-- C1: in every collector state reached from the empty collector by record
and flush operations, for a name bound to payload type `t`: a `record` with
a value of another type throws the type-mismatch error, a `record` with a
value of type `t` returns, and after a flush the name is still bound to `t`
and the mismatching `record` still throws. -/
theorem record_type_safety (P : Platform) (file₀ : Option String) (ops : List Op)
    (name : String) (t : PayloadType)
    (hb : (applyOps P ({ metrics_ := [] }, file₀) ops).1.boundType name = some t) :
    (∀ v : Payload, v.type ≠ t →
      ((applyOps P ({ metrics_ := [] }, file₀) ops).1.record name v).1 =
        RecordResult.error ("Type mismatch for metric " ++ name)) ∧
    (∀ v : Payload, v.type = t →
      ((applyOps P ({ metrics_ := [] }, file₀) ops).1.record name v).1 = RecordResult.ok) ∧
    (∀ (env : FlushEnv) (file : Option String),
      (((applyOps P ({ metrics_ := [] }, file₀) ops).1.flushToFile P env file).1.boundType name
          = some t) ∧
      ∀ v : Payload, v.type ≠ t →
        ((((applyOps P ({ metrics_ := [] }, file₀) ops).1.flushToFile P env file).1.record
            name v).1 = RecordResult.error ("Type mismatch for metric " ++ name))) := by
  have key : ∀ c : MetricsCollector, c.boundType name = some t →
      (∀ v : Payload, v.type ≠ t →
        (c.record name v).1 = RecordResult.error ("Type mismatch for metric " ++ name)) ∧
      (∀ v : Payload, v.type = t → (c.record name v).1 = RecordResult.ok) := by
    intro c hc
    constructor
    · intro v hv
      rw [MetricsCollector.record_fst, hc]
      have : ¬ t = v.type := fun h => hv h.symm
      simp [this]
    · intro v hv
      rw [MetricsCollector.record_fst, hc]
      simp [hv]
  refine ⟨(key _ hb).1, (key _ hb).2, ?_⟩
  intro env file
  have hb' := (MetricsCollector.flushToFile_boundType P env
    (applyOps P ({ metrics_ := [] }, file₀) ops).1 file name).trans hb
  exact ⟨hb', (key _ hb').1⟩

theorem record_type_safety_witness :
    (applyOps ⟨fun _ => "", 1⟩ ({ metrics_ := [] }, none)
        [Op.record "x" (.int 1), Op.flush ⟨true, "T"⟩]).1.boundType "x" = some .int ∧
    ((applyOps ⟨fun _ => "", 1⟩ ({ metrics_ := [] }, none)
        [Op.record "x" (.int 1), Op.flush ⟨true, "T"⟩]).1.record "x" (.string "s")).1 =
      RecordResult.error ("Type mismatch for metric " ++ "x") ∧
    ((applyOps ⟨fun _ => "", 1⟩ ({ metrics_ := [] }, none)
        [Op.record "x" (.int 1), Op.flush ⟨true, "T"⟩]).1.record "x" (.int 7)).1 =
      RecordResult.ok :=
  have h := record_type_safety ⟨fun _ => "", 1⟩ none
    [Op.record "x" (.int 1), Op.flush ⟨true, "T"⟩] "x" .int (by decide)
  ⟨by decide, h.1 (.string "s") (by decide), h.2.1 (.int 7) (by decide)⟩

/-! ## C2 -/

/-- C2: when `AsyncMetricsWriter::record(name, v)` throws, the writer is
left as it was: the collector, hence the holder under every name with its
type, value and valid flag, is unchanged, and `scheduledFlush_` keeps its
value; the inner `MetricsCollector::record` leaves the collector unchanged
as well. -/
theorem record_mismatch_state_unchanged (w : AsyncMetricsWriter) (name : String)
    (v : Payload) (what : String) (h : (w.record name v).1 = RecordResult.error what) :
    (w.record name v).2 = w ∧
    (w.collector_.record name v).2 = w.collector_ ∧
    (∀ n : String, (w.record name v).2.collector_.find n = w.collector_.find n) ∧
    (w.record name v).2.scheduledFlush_ = w.scheduledFlush_ ∧
    what = "Type mismatch for metric " ++ name := by
  have hc : (w.collector_.record name v).1 = RecordResult.error what := by
    unfold AsyncMetricsWriter.record at h
    cases hr : w.collector_.record name v with
    | mk r c =>
      rw [hr] at h
      cases r with
      | ok => simp at h
      | error e => simpa using h
  have hsnd := MetricsCollector.record_error_snd _ _ _ _ hc
  have hw : (w.record name v).2 = w := by
    unfold AsyncMetricsWriter.record
    cases hr : w.collector_.record name v with
    | mk r c =>
      rw [hr] at hc hsnd
      simp only at hc hsnd
      subst hc hsnd
      cases w
      rfl
  have hwhat : what = "Type mismatch for metric " ++ name := by
    rw [MetricsCollector.record_fst] at hc
    cases hb : w.collector_.boundType name with
    | none => simp [hb] at hc
    | some t =>
      rw [hb] at hc
      by_cases ht : t = v.type
      · simp [ht] at hc
      · simp only [ht, if_false] at hc
        injection hc with hc
        exact hc.symm
  refine ⟨hw, hsnd, ?_, ?_, hwhat⟩
  · intro n; rw [hw]
  · rw [hw]

theorem record_mismatch_state_unchanged_witness :
    ((⟨⟨[("x", ⟨.int 1, false⟩)]⟩, 1000, true, false, 0⟩ : AsyncMetricsWriter).record
        "x" (.double ⟨0⟩)).2 =
      (⟨⟨[("x", ⟨.int 1, false⟩)]⟩, 1000, true, false, 0⟩ : AsyncMetricsWriter) :=
  (record_mismatch_state_unchanged ⟨⟨[("x", ⟨.int 1, false⟩)]⟩, 1000, true, false, 0⟩
    "x" (.double ⟨0⟩) "Type mismatch for metric x" (by decide)).1

/-! ## C3 -/

/-- C3: if `name` is new or bound to the payload type of `v`, then
`record(name, v)` returns, the holder under `name` afterwards is exactly `v`
with `valid_ = true`, and the entries under every other name are the same
as before (as a list, and so under lookup). -/
theorem record_stores_value (c : MetricsCollector) (name : String) (v : Payload)
    (h : c.boundType name = none ∨ c.boundType name = some v.type) :
    (c.record name v).1 = RecordResult.ok ∧
    (c.record name v).2.find name = some { value_ := v, valid_ := true } ∧
    (c.record name v).2.metrics_.filter (fun e => !decide (e.1 = name)) =
      c.metrics_.filter (fun e => !decide (e.1 = name)) ∧
    (∀ n : String, n ≠ name → (c.record name v).2.find n = c.find n) := by
  have hok : (c.record name v).1 = RecordResult.ok := by
    rw [MetricsCollector.record_fst]
    rcases h with h | h <;> simp [h]
  refine ⟨hok, MetricsCollector.record_find_self c name v hok, ?_, ?_⟩
  · simpa using MetricsCollector.record_filter_ne c name v
  · intro n hn
    exact MetricsCollector.record_find_ne c name n v hn

theorem record_stores_value_witness :
    ((⟨[("a", ⟨.int 1, false⟩), ("b", ⟨.string "u", true⟩)]⟩ : MetricsCollector).record
        "a" (.int 5)).2.find "a" = some { value_ := .int 5, valid_ := true } :=
  (record_stores_value ⟨[("a", ⟨.int 1, false⟩), ("b", ⟨.string "u", true⟩)]⟩ "a" (.int 5)
    (Or.inr (by decide))).2.1

/-! ## C4 -/

/-- C4: for a collector whose keys are distinct, the snapshot built by the
locked block of `flushToFile` holds exactly the entries with `hasValue()`:
the name of each such entry occurs once in the snapshot, paired with the
holder's clone, whose `toString()` and payload are those of the stored
holder and whose `hasValue()` is true; a name whose holder has
`hasValue() = false` does not occur; and every name of the snapshot is the
name of a holder with `hasValue()`. -/
theorem snapshot_exact (P : Platform) (c : MetricsCollector) (hc : c.WF) :
    (∀ (name : String) (h : TypedMetricValue), c.find name = some h → h.hasValue = true →
      ((snapshotLoop c.metrics_).1.map Prod.fst).count name = 1 ∧
      (name, h.clone) ∈ (snapshotLoop c.metrics_).1 ∧
      h.clone.toString P = h.toString P ∧ h.clone.value_ = h.value_ ∧
      h.clone.hasValue = true) ∧
    (∀ (name : String) (h : TypedMetricValue), c.find name = some h → h.hasValue = false →
      name ∉ (snapshotLoop c.metrics_).1.map Prod.fst) ∧
    (∀ (name : String) (cl : TypedMetricValue), (name, cl) ∈ (snapshotLoop c.metrics_).1 →
      ∃ h, c.find name = some h ∧ h.hasValue = true ∧ cl = h.clone) := by
  have hsub : ((snapshotLoop c.metrics_).1.map Prod.fst).Nodup := by
    rw [snapshotLoop_fst]
    exact List.Nodup.sublist (List.Sublist.map _ (List.filter_sublist _)) hc
  refine ⟨?_, ?_, ?_⟩
  · intro name h hf hv
    have hmem : (name, h) ∈ (snapshotLoop c.metrics_).1 := by
      rw [snapshotLoop_fst]
      exact List.mem_filter.2 ⟨findEntry_mem name h c.metrics_ hf, hv⟩
    refine ⟨?_, hmem, rfl, rfl, hv⟩
    exact List.count_eq_one_of_mem hsub (List.mem_map_of_mem Prod.fst hmem)
  · intro name h hf hv hin
    rw [snapshotLoop_fst] at hin
    obtain ⟨e, he, hname⟩ := List.mem_map.1 hin
    obtain ⟨hel, hev⟩ := List.mem_filter.1 he
    obtain ⟨k, h'⟩ := e
    simp only at hname
    subst hname
    have := findEntry_of_mem k h' c.metrics_ hc hel
    unfold MetricsCollector.find at hf
    rw [this] at hf
    cases hf
    simp only at hev
    rw [hv] at hev
    exact Bool.noConfusion hev
  · intro name cl hin
    rw [snapshotLoop_fst] at hin
    obtain ⟨hel, hev⟩ := List.mem_filter.1 hin
    exact ⟨cl, findEntry_of_mem name cl c.metrics_ hc hel, hev, rfl⟩

theorem snapshot_exact_witness :
    (((snapshotLoop [("a", ⟨.int 1, true⟩), ("b", ⟨.int 2, false⟩)]).1.map
        Prod.fst).count "a" = 1) ∧
    "b" ∉ (snapshotLoop [("a", ⟨.int 1, true⟩), ("b", ⟨.int 2, false⟩)]).1.map Prod.fst :=
  have h := snapshot_exact ⟨fun _ => "", 1⟩
    ⟨[("a", ⟨.int 1, true⟩), ("b", ⟨.int 2, false⟩)]⟩ (by decide)
  ⟨(h.1 "a" ⟨.int 1, true⟩ (by decide) (by decide)).1,
   h.2.1 "b" ⟨.int 2, false⟩ (by decide) (by decide)⟩

/-! ## Stale holders stay stale -/

theorem all_stale_after_reset (l : List (String × TypedMetricValue)) :
    ∀ e ∈ l.map (fun e => (e.1, e.2.reset)), e.2.hasValue = false := by
  intro e he
  obtain ⟨e', _, rfl⟩ := List.mem_map.1 he
  rfl

theorem record_ne_ok_unchanged (c : MetricsCollector) (n : String) (v : Payload)
    (h : (c.record n v).1 ≠ RecordResult.ok) : (c.record n v).2 = c := by
  cases hr : (c.record n v).1 with
  | ok => exact absurd hr h
  | error what => exact MetricsCollector.record_error_snd c n v what hr

theorem record_other_entries (c : MetricsCollector) (n name : String) (v : Payload)
    (hn : n ≠ name) (e : String × TypedMetricValue) (he : e ∈ (c.record n v).2.metrics_)
    (hname : e.1 = name) : e ∈ c.metrics_ := by
  have hne : e.1 ≠ n := by rw [hname]; exact fun h => hn h.symm
  have h1 : e ∈ (c.record n v).2.metrics_.filter (fun e => decide (e.1 ≠ n)) :=
    List.mem_filter.2 ⟨he, by simpa using hne⟩
  rw [MetricsCollector.record_filter_ne] at h1
  exact (List.mem_filter.1 h1).1

theorem stale_preserved (P : Platform) (name : String) (ops : List Op) :
    ∀ s : MetricsCollector × Option String,
      (∀ e ∈ s.1.metrics_, e.1 = name → e.2.hasValue = false) →
      noRecordOn P name s ops →
      ∀ e ∈ (applyOps P s ops).1.metrics_, e.1 = name → e.2.hasValue = false := by
  induction ops with
  | nil => intro s hs _; exact hs
  | cons op rest ih =>
    intro s hs hq
    obtain ⟨hop, hrest⟩ := hq
    apply ih (applyOp P s op) _ hrest
    cases op with
    | record n v =>
      intro e he hname
      by_cases hn : n = name
      · have hunch := record_ne_ok_unchanged s.1 n v (hop hn)
        simp only [applyOp] at he
        rw [hunch] at he
        exact hs e he hname
      · exact hs e (record_other_entries s.1 n name v hn e he hname) hname
    | flush env =>
      intro e he _
      simp only [applyOp, MetricsCollector.flushToFile_fst] at he
      exact all_stale_after_reset _ e he

/-! ## Sorting by name -/

theorem name_toList_ne {a b : String} (h : a ≠ b) : a.toList ≠ b.toList :=
  fun he => h (String.ext he)

theorem insertByName_perm (x : String × TypedMetricValue)
    (l : List (String × TypedMetricValue)) : (insertByName x l).Perm (x :: l) := by
  induction l with
  | nil => exact List.Perm.refl _
  | cons y ys ih =>
    by_cases hxy : nameLess x y = true
    · simp [insertByName, hxy]
    · simp only [insertByName, hxy]
      exact ((ih.cons y).trans (List.Perm.swap x y ys))

theorem sortByName_perm (l : List (String × TypedMetricValue)) : (sortByName l).Perm l := by
  induction l with
  | nil => exact List.Perm.refl _
  | cons x xs ih => exact (insertByName_perm x (sortByName xs)).trans (ih.cons x)

theorem insertByName_sorted (x : String × TypedMetricValue)
    (l : List (String × TypedMetricValue))
    (hl : l.Pairwise (fun a b => a.1.toList ≤ b.1.toList)) :
    (insertByName x l).Pairwise (fun a b => a.1.toList ≤ b.1.toList) := by
  induction l with
  | nil => simp [insertByName]
  | cons y ys ih =>
    obtain ⟨hy, hys⟩ := List.pairwise_cons.1 hl
    by_cases hxy : nameLess x y = true
    · have hlt : x.1.toList < y.1.toList := by simpa [nameLess] using hxy
      simp only [insertByName, hxy, if_true]
      refine List.pairwise_cons.2 ⟨?_, hl⟩
      intro z hz
      rcases List.mem_cons.1 hz with rfl | hz
      · exact le_of_lt hlt
      · exact le_trans (le_of_lt hlt) (hy z hz)
    · have hge : y.1.toList ≤ x.1.toList := by
        have : ¬ x.1.toList < y.1.toList := by simpa [nameLess] using hxy
        exact not_lt.1 this
      simp only [insertByName, hxy]
      refine List.pairwise_cons.2 ⟨?_, ih hys⟩
      intro z hz
      rcases List.mem_cons.1 ((insertByName_perm x ys).mem_iff.1 hz) with rfl | hz
      · exact hge
      · exact hy z hz

theorem sortByName_sorted (l : List (String × TypedMetricValue)) :
    (sortByName l).Pairwise (fun a b => a.1.toList ≤ b.1.toList) := by
  induction l with
  | nil => exact List.Pairwise.nil
  | cons x xs ih => exact insertByName_sorted x _ ih

theorem strict_of_sorted_nodup (l : List (String × TypedMetricValue))
    (hs : l.Pairwise (fun a b => a.1.toList ≤ b.1.toList))
    (hn : (l.map Prod.fst).Nodup) :
    l.Pairwise (fun a b => a.1.toList < b.1.toList) := by
  have hne : l.Pairwise (fun a b => a.1 ≠ b.1) := by
    have := hn
    rw [List.Nodup, List.pairwise_map] at this
    exact this
  exact (hs.and hne).imp (fun h => lt_of_le_of_ne h.1 (name_toList_ne h.2))

theorem sortByName_strict (l : List (String × TypedMetricValue))
    (hn : (l.map Prod.fst).Nodup) :
    (sortByName l).Pairwise (fun a b => a.1.toList < b.1.toList) :=
  strict_of_sorted_nodup _ (sortByName_sorted l)
    (((sortByName_perm l).map Prod.fst).nodup_iff.2 hn)

theorem eq_of_perm_of_strict (l₁ l₂ : List (String × TypedMetricValue))
    (hp : l₁.Perm l₂)
    (h₁ : l₁.Pairwise (fun a b => a.1.toList < b.1.toList))
    (h₂ : l₂.Pairwise (fun a b => a.1.toList < b.1.toList)) : l₁ = l₂ := by
  haveI : IsAntisymm (String × TypedMetricValue) (fun a b => a.1.toList < b.1.toList) :=
    ⟨fun a b hab hba => absurd hab (lt_asymm hba)⟩
  exact List.eq_of_perm_of_sorted hp h₁ h₂

/-- Any arrangement of a list with distinct names that `std::sort` may
return, a permutation in which no later element is less than an earlier
one, is the list `sortByName` computes. -/
theorem sortByName_unique (l l' : List (String × TypedMetricValue))
    (hn : (l.map Prod.fst).Nodup) (hp : l'.Perm l)
    (hs : l'.Pairwise (fun a b => nameLess b a = false)) : l' = sortByName l := by
  apply eq_of_perm_of_strict _ _ (hp.trans (sortByName_perm l).symm) _ (sortByName_strict l hn)
  apply strict_of_sorted_nodup
  · refine hs.imp ?_
    intro a b hab
    have : ¬ b.1.toList < a.1.toList := by simpa [nameLess] using hab
    exact not_lt.1 this
  · exact ((hp.map Prod.fst).nodup_iff).2 hn

/-- The sorted snapshot does not depend on the order of the snapshot, hence
not on the iteration order of the map. -/
theorem sortByName_congr (l₁ l₂ : List (String × TypedMetricValue))
    (hn : (l₂.map Prod.fst).Nodup) (hp : l₁.Perm l₂) : sortByName l₁ = sortByName l₂ := by
  apply sortByName_unique l₂ (sortByName l₁) hn ((sortByName_perm l₁).trans hp)
  refine (sortByName_sorted l₁).imp ?_
  intro a b hab
  exact decide_eq_false (not_lt.2 hab)

theorem snapshot_names_nodup (c : MetricsCollector) (hc : c.WF) :
    ((snapshotLoop c.metrics_).1.map Prod.fst).Nodup := by
  rw [snapshotLoop_fst]
  exact List.Nodup.sublist (List.Sublist.map _ (List.filter_sublist _)) hc

theorem MetricsCollector.flushToFile_snd (P : Platform) (env : FlushEnv)
    (c : MetricsCollector) (file : Option String) :
    (c.flushToFile P env file).2 =
      if (snapshotLoop c.metrics_).1 = [] ∨ env.opens = false then file
      else some (file.getD "" ++ env.stamp ++
        writeEntries P (sortByName (snapshotLoop c.metrics_).1) ++ "\n") := by
  unfold MetricsCollector.flushToFile lineText
  cases hs : (snapshotLoop c.metrics_).1 with
  | nil => simp
  | cons e rest =>
    cases ho : env.opens <;> simp [String.append_assoc]

theorem MetricsCollector.flushToFile_snd_cases (P : Platform) (env : FlushEnv)
    (c : MetricsCollector) (file : Option String) :
    (c.flushToFile P env file).2 = file ∨
    (c.flushToFile P env file).2 = some (file.getD "" ++ env.stamp ++
        writeEntries P (sortByName (snapshotLoop c.metrics_).1) ++ "\n") := by
  rw [MetricsCollector.flushToFile_snd]
  split_ifs
  · exact Or.inl rfl
  · exact Or.inr rfl

theorem stale_after_flush (P : Platform) (c : MetricsCollector) (env : FlushEnv)
    (file : Option String) (name : String) (ops : List Op)
    (hq : noRecordOn P name (c.flushToFile P env file) ops) :
    ∀ e ∈ (applyOps P (c.flushToFile P env file) ops).1.metrics_,
      e.1 = name → e.2.hasValue = false := by
  apply stale_preserved P name ops _ _ hq
  intro e he _
  rw [MetricsCollector.flushToFile_fst] at he
  exact all_stale_after_reset _ e he

/-! ## C5 -/

/-- C5: right after a flush every holder of the collector has
`hasValue() = false`; and the holders under a name keep `hasValue() = false`
through any further operations among which no `record` on that name
returns normally (flushes, records on other names, throwing records). -/
theorem stale_until_next_record (P : Platform) (c : MetricsCollector) (env : FlushEnv)
    (file : Option String) :
    (∀ e ∈ (c.flushToFile P env file).1.metrics_, e.2.hasValue = false) ∧
    (∀ (name : String) (ops : List Op),
      noRecordOn P name (c.flushToFile P env file) ops →
      ∀ e ∈ (applyOps P (c.flushToFile P env file) ops).1.metrics_,
        e.1 = name → e.2.hasValue = false) := by
  constructor
  · rw [MetricsCollector.flushToFile_fst]
    exact all_stale_after_reset _
  · intro name ops hq
    exact stale_after_flush P c env file name ops hq

theorem stale_until_next_record_witness :
    (("a", ⟨.int 1, false⟩) : String × TypedMetricValue) ∈
      (applyOps ⟨fun _ => "", 1⟩
        ((⟨[("a", ⟨.int 1, true⟩)]⟩ : MetricsCollector).flushToFile ⟨fun _ => "", 1⟩
          ⟨true, "T"⟩ none)
        [Op.record "b" (.int 2), Op.record "a" (.string "s"), Op.flush ⟨true, "U"⟩]).1.metrics_ ∧
    (("a", ⟨.int 1, false⟩) : String × TypedMetricValue).2.hasValue = false :=
  ⟨by decide,
   (stale_until_next_record ⟨fun _ => "", 1⟩ ⟨[("a", ⟨.int 1, true⟩)]⟩ ⟨true, "T"⟩ none).2
    "a" [Op.record "b" (.int 2), Op.record "a" (.string "s"), Op.flush ⟨true, "U"⟩]
    ⟨by decide, by decide, trivial, trivial⟩ ("a", ⟨.int 1, false⟩) (by decide) rfl⟩

/-! ## C6 -/

/-- C6: a flush leaves the names of the map, in their order, the payload
type bound to each name and the stored payload of every entry as they
were; `reset()` on a holder keeps `value_` and clears `valid_`. -/
theorem flush_changes_only_valid (P : Platform) (c : MetricsCollector) (env : FlushEnv)
    (file : Option String) :
    (c.flushToFile P env file).1.metrics_.map (fun e => (e.1, e.2.value_)) =
      c.metrics_.map (fun e => (e.1, e.2.value_)) ∧
    (c.flushToFile P env file).1.metrics_.map Prod.fst = c.metrics_.map Prod.fst ∧
    (∀ name : String, (c.flushToFile P env file).1.boundType name = c.boundType name) ∧
    (∀ name : String, ((c.flushToFile P env file).1.find name).map (fun h => h.value_) =
      (c.find name).map (fun h => h.value_)) ∧
    (∀ h : TypedMetricValue, h.reset.value_ = h.value_ ∧ h.reset.hasValue = false) := by
  refine ⟨?_, ?_, ?_, ?_, fun h => ⟨rfl, rfl⟩⟩
  · rw [MetricsCollector.flushToFile_fst]
    simp [List.map_map, Function.comp_def, TypedMetricValue.reset]
  · rw [MetricsCollector.flushToFile_fst]
    simp [List.map_map, Function.comp_def]
  · intro name
    exact MetricsCollector.flushToFile_boundType P env c file name
  · intro name
    rw [MetricsCollector.flushToFile_find]
    cases c.find name <;> rfl

/-! ## C8 -/

/-- C8: after a flush (whether or not it captured `name`) and any further
operations among which no `record` on `name` returns normally, the entries
a later flush writes do not include `name`; that flush leaves the file as
it is or appends the line of those entries. -/
theorem flushed_value_not_rewritten (P : Platform) (c : MetricsCollector) (env : FlushEnv)
    (file : Option String) (name : String) (ops : List Op) (env' : FlushEnv)
    (hq : noRecordOn P name (c.flushToFile P env file) ops) :
    name ∉ (sortByName (snapshotLoop
      (applyOps P (c.flushToFile P env file) ops).1.metrics_).1).map Prod.fst ∧
    (((applyOps P (c.flushToFile P env file) ops).1.flushToFile P env'
        (applyOps P (c.flushToFile P env file) ops).2).2 =
      (applyOps P (c.flushToFile P env file) ops).2 ∨
     ((applyOps P (c.flushToFile P env file) ops).1.flushToFile P env'
        (applyOps P (c.flushToFile P env file) ops).2).2 =
      some ((applyOps P (c.flushToFile P env file) ops).2.getD "" ++ env'.stamp ++
        writeEntries P (sortByName (snapshotLoop
          (applyOps P (c.flushToFile P env file) ops).1.metrics_).1) ++ "\n")) := by
  constructor
  · intro hin
    have hin' := ((sortByName_perm _).map Prod.fst).mem_iff.1 hin
    rw [snapshotLoop_fst] at hin'
    obtain ⟨e, he, hname⟩ := List.mem_map.1 hin'
    obtain ⟨hel, hev⟩ := List.mem_filter.1 he
    have := stale_after_flush P c env file name ops hq e hel hname
    rw [this] at hev
    exact Bool.noConfusion hev
  · exact MetricsCollector.flushToFile_snd_cases P env' _ _

theorem flushed_value_not_rewritten_witness :
    "a" ∉ (sortByName (snapshotLoop
      (applyOps ⟨fun _ => "", 1⟩
        ((⟨[("a", ⟨.int 1, true⟩)]⟩ : MetricsCollector).flushToFile ⟨fun _ => "", 1⟩
          ⟨true, "T"⟩ none)
        [Op.record "b" (.int 2), Op.flush ⟨true, "U"⟩, Op.record "b" (.int 3)]).1.metrics_).1).map
      Prod.fst :=
  (flushed_value_not_rewritten ⟨fun _ => "", 1⟩ ⟨[("a", ⟨.int 1, true⟩)]⟩ ⟨true, "T"⟩ none "a"
    [Op.record "b" (.int 2), Op.flush ⟨true, "U"⟩, Op.record "b" (.int 3)] ⟨true, "V"⟩
    ⟨by decide, trivial, by decide, trivial⟩).1

/-! ## C7 -/

/-- The file content starts with `base`. -/
theorem extends_append (base x t : String) (f : Option String)
    (hf : f.getD "" = base ++ x) :
    (some (f.getD "" ++ t) : Option String).getD "" = base ++ (x ++ t) := by
  simp [hf, String.append_assoc]

theorem Logged.append (P : Platform) (base name : String) (v : Payload) (f : Option String)
    (t : String) (h : Logged P base name v f) :
    Logged P base name v (some (f.getD "" ++ t)) := by
  obtain ⟨pre, stamp, snap, post, hf, hm⟩ := h
  refine ⟨pre, stamp, snap, post ++ t, ?_, hm⟩
  rw [hf]
  simp [String.append_assoc]

theorem writeEntries_mem (P : Platform) (name : String) (h : TypedMetricValue)
    (l : List (String × TypedMetricValue)) (hm : (name, h) ∈ l) :
    ∃ a z : String, writeEntries P l = a ++ (" \"" ++ name ++ "\" " ++ h.toString P) ++ z := by
  induction l with
  | nil => simp at hm
  | cons e rest ih =>
    obtain ⟨k, h0⟩ := e
    rcases List.mem_cons.1 hm with heq | hin
    · cases heq
      exact ⟨"", writeEntries P rest, by simp [writeEntries, String.append_assoc]⟩
    · obtain ⟨a, z, hz⟩ := ih hin
      refine ⟨" \"" ++ k ++ "\" " ++ h0.toString P ++ a, z, ?_⟩
      simp [writeEntries, hz, String.append_assoc]

theorem flushToFile_extends (P : Platform) (env : FlushEnv) (c : MetricsCollector)
    (f : Option String) (base : String) (h : ∃ x : String, f.getD "" = base ++ x) :
    ∃ x : String, (c.flushToFile P env f).2.getD "" = base ++ x := by
  obtain ⟨x, hx⟩ := h
  rcases MetricsCollector.flushToFile_snd_cases P env c f with h1 | h1
  · exact ⟨x, by rw [h1, hx]⟩
  · refine ⟨x ++ (env.stamp ++ writeEntries P (sortByName (snapshotLoop c.metrics_).1) ++ "\n"), ?_⟩
    rw [h1]
    simp [hx, String.append_assoc]

theorem flushToFile_kept (P : Platform) (env : FlushEnv) (c : MetricsCollector)
    (f : Option String) (base name : String) (v : Payload) (ho : env.opens = true)
    (h : Kept P base name v c f) :
    (∃ x : String, (c.flushToFile P env f).2.getD "" = base ++ x) ∧
    Logged P base name v (c.flushToFile P env f).2 := by
  obtain ⟨hext, hk⟩ := h
  refine ⟨flushToFile_extends P env c f base hext, ?_⟩
  rcases hk with hpend | hlog
  · have hmem : (name, ({ value_ := v, valid_ := true } : TypedMetricValue)) ∈
        (snapshotLoop c.metrics_).1 := by
      rw [snapshotLoop_fst]
      exact List.mem_filter.2 ⟨findEntry_mem name _ c.metrics_ hpend, rfl⟩
    have hne : ¬ ((snapshotLoop c.metrics_).1 = [] ∨ env.opens = false) := by
      intro h
      rcases h with h | h
      · rw [h] at hmem; simp at hmem
      · rw [ho] at h; exact Bool.noConfusion h
    obtain ⟨x, hx⟩ := hext
    refine ⟨x, env.stamp, (snapshotLoop c.metrics_).1, "", ?_, hmem⟩
    rw [MetricsCollector.flushToFile_snd, if_neg hne, hx]
    simp [lineText, String.append_assoc]
  · rcases MetricsCollector.flushToFile_snd_cases P env c f with h1 | h1
    · rw [h1]; exact hlog
    · rw [h1]
      have := Logged.append P base name v f
        (env.stamp ++ writeEntries P (sortByName (snapshotLoop c.metrics_).1) ++ "\n") hlog
      simpa [String.append_assoc] using this

theorem wake_kept (P : Platform) (now : Int) (env : FlushEnv)
    (s : AsyncMetricsWriter × Option String) (base name : String) (v : Payload)
    (ho : env.opens = true) (h : Kept P base name v s.1.collector_ s.2) :
    Kept P base name v (AsyncMetricsWriter.wake P now env s).1.collector_
      (AsyncMetricsWriter.wake P now env s).2 := by
  unfold AsyncMetricsWriter.wake
  split_ifs
  · have := flushToFile_kept P env s.1.collector_ s.2 base name v ho h
    exact ⟨this.1, Or.inr this.2⟩
  · exact h

theorem wake_extends (P : Platform) (now : Int) (env : FlushEnv)
    (s : AsyncMetricsWriter × Option String) (base : String)
    (h : ∃ x : String, s.2.getD "" = base ++ x) :
    ∃ x : String, (AsyncMetricsWriter.wake P now env s).2.getD "" = base ++ x := by
  unfold AsyncMetricsWriter.wake
  split_ifs
  · exact flushToFile_extends P env s.1.collector_ s.2 base h
  · exact h

theorem writer_record_ok (w w' : AsyncMetricsWriter) (name : String) (v : Payload)
    (h : w.record name v = (RecordResult.ok, w')) :
    (w.collector_.record name v).1 = RecordResult.ok ∧
    w'.collector_ = (w.collector_.record name v).2 := by
  unfold AsyncMetricsWriter.record at h
  cases hr : w.collector_.record name v with
  | mk r c =>
    rw [hr] at h
    cases r with
    | ok =>
      simp only [Prod.mk.injEq, true_and] at h
      subst h
      exact ⟨rfl, rfl⟩
    | error e => simp at h

theorem step_extends (P : Platform) (s s' : AsyncMetricsWriter × Option String)
    (e : AsyncMetricsWriter.Event) (base : String)
    (hs : AsyncMetricsWriter.step P s e = some s')
    (h : ∃ x : String, s.2.getD "" = base ++ x) :
    ∃ x : String, s'.2.getD "" = base ++ x := by
  cases e with
  | record n v =>
    simp only [AsyncMetricsWriter.step] at hs
    cases hr : s.1.record n v with
    | mk r w =>
      rw [hr] at hs
      cases r with
      | ok =>
        simp only [Option.some.injEq] at hs
        subst hs
        exact h
      | error e => simp at hs
  | wake now env =>
    simp only [AsyncMetricsWriter.step, Option.some.injEq] at hs
    subst hs
    exact wake_extends P now env s base h

theorem step_record_self (P : Platform) (s s' : AsyncMetricsWriter × Option String)
    (name : String) (v : Payload) (base : String)
    (hs : AsyncMetricsWriter.step P s (.record name v) = some s')
    (h : ∃ x : String, s.2.getD "" = base ++ x) :
    Kept P base name v s'.1.collector_ s'.2 := by
  refine ⟨step_extends P s s' _ base hs h, Or.inl ?_⟩
  simp only [AsyncMetricsWriter.step] at hs
  cases hr : s.1.record name v with
  | mk r w =>
    rw [hr] at hs
    cases r with
    | ok =>
      simp only [Option.some.injEq] at hs
      subst hs
      obtain ⟨hok, hc⟩ := writer_record_ok _ _ _ _ hr
      simp only [hc]
      exact MetricsCollector.record_find_self _ _ _ hok
    | error e => simp at hs

theorem step_kept (P : Platform) (s s' : AsyncMetricsWriter × Option String)
    (e : AsyncMetricsWriter.Event) (base name : String) (v : Payload)
    (hs : AsyncMetricsWriter.step P s e = some s')
    (hopen : ∀ now env, e = .wake now env → env.opens = true)
    (hnot : ∀ v', e ≠ .record name v')
    (h : Kept P base name v s.1.collector_ s.2) :
    Kept P base name v s'.1.collector_ s'.2 := by
  cases e with
  | record n v' =>
    have hn : name ≠ n := by
      intro hn
      exact hnot v' (by rw [hn])
    refine ⟨step_extends P s s' _ base hs h.1, ?_⟩
    simp only [AsyncMetricsWriter.step] at hs
    cases hr : s.1.record n v' with
    | mk r w =>
      rw [hr] at hs
      cases r with
      | ok =>
        simp only [Option.some.injEq] at hs
        subst hs
        obtain ⟨_, hc⟩ := writer_record_ok _ _ _ _ hr
        simp only [hc]
        rcases h.2 with hp | hl
        · left
          rw [MetricsCollector.record_find_ne _ _ _ _ hn]
          exact hp
        · exact Or.inr hl
      | error e => simp at hs
  | wake now env =>
    simp only [AsyncMetricsWriter.step, Option.some.injEq] at hs
    subst hs
    exact wake_kept P now env s base name v (hopen now env rfl) h

theorem runEvents_kept (P : Platform) (base name : String) (v : Payload)
    (events : List AsyncMetricsWriter.Event) :
    ∀ s s' : AsyncMetricsWriter × Option String,
      AsyncMetricsWriter.runEvents P s events = some s' →
      (∀ now env, AsyncMetricsWriter.Event.wake now env ∈ events → env.opens = true) →
      lastRecorded name events = none →
      Kept P base name v s.1.collector_ s.2 →
      Kept P base name v s'.1.collector_ s'.2 := by
  induction events with
  | nil =>
    intro s s' hr _ _ h
    simp only [AsyncMetricsWriter.runEvents, Option.some.injEq] at hr
    subst hr
    exact h
  | cons e es ih =>
    intro s s' hr hopen hlast h
    simp only [AsyncMetricsWriter.runEvents] at hr
    cases hst : AsyncMetricsWriter.step P s e with
    | none => rw [hst] at hr; simp at hr
    | some s1 =>
      rw [hst] at hr
      simp only at hr
      simp only [lastRecorded] at hlast
      cases hl : lastRecorded name es with
      | some v' => rw [hl] at hlast; simp at hlast
      | none =>
        rw [hl] at hlast
        simp only at hlast
        have hnot : ∀ v', e ≠ .record name v' := by
          intro v' he
          subst he
          simp at hlast
        apply ih s1 s' hr (fun now env hm => hopen now env (List.mem_cons_of_mem _ hm)) hl
        exact step_kept P s s1 e base name v hst
          (fun now env he => hopen now env (by rw [he]; exact List.mem_cons_self _ _)) hnot h

theorem runEvents_last (P : Platform) (base name : String) (v : Payload)
    (events : List AsyncMetricsWriter.Event) :
    ∀ s s' : AsyncMetricsWriter × Option String,
      AsyncMetricsWriter.runEvents P s events = some s' →
      (∀ now env, AsyncMetricsWriter.Event.wake now env ∈ events → env.opens = true) →
      lastRecorded name events = some v →
      (∃ x : String, s.2.getD "" = base ++ x) →
      Kept P base name v s'.1.collector_ s'.2 := by
  induction events with
  | nil =>
    intro s s' _ _ hlast _
    simp [lastRecorded] at hlast
  | cons e es ih =>
    intro s s' hr hopen hlast hext
    simp only [AsyncMetricsWriter.runEvents] at hr
    cases hst : AsyncMetricsWriter.step P s e with
    | none => rw [hst] at hr; simp at hr
    | some s1 =>
      rw [hst] at hr
      simp only at hr
      have hext1 := step_extends P s s1 e base hst hext
      have hopen' : ∀ now env, AsyncMetricsWriter.Event.wake now env ∈ es → env.opens = true :=
        fun now env hm => hopen now env (List.mem_cons_of_mem _ hm)
      simp only [lastRecorded] at hlast
      cases hl : lastRecorded name es with
      | some v' =>
        rw [hl] at hlast
        simp only [Option.some.injEq] at hlast
        subst hlast
        exact ih s1 s' hr hopen' hl hext1
      | none =>
        rw [hl] at hlast
        simp only at hlast
        cases e with
        | wake now env => simp at hlast
        | record n v' =>
          simp only at hlast
          by_cases hn : n = name
          · simp only [hn, if_true, Option.some.injEq] at hlast
            subst hlast
            subst hn
            exact runEvents_kept P base n v' es s1 s' hr hopen' hl
              (step_record_self P s s1 n v' base hst hext)
          · simp [hn] at hlast

theorem joining_kept (P : Platform) (base name : String) (v : Payload)
    (joining : List (Int × FlushEnv)) :
    ∀ s : AsyncMetricsWriter × Option String,
      (∀ j ∈ joining, j.2.opens = true) →
      Kept P base name v s.1.collector_ s.2 →
      Kept P base name v
        (joining.foldl (fun t j => AsyncMetricsWriter.wake P j.1 j.2 t) s).1.collector_
        (joining.foldl (fun t j => AsyncMetricsWriter.wake P j.1 j.2 t) s).2 := by
  induction joining with
  | nil => intro s _ h; exact h
  | cons j js ih =>
    intro s hopen h
    simp only [List.foldl_cons]
    apply ih _ (fun j' hj' => hopen j' (List.mem_cons_of_mem _ hj'))
    exact wake_kept P j.1 j.2 s base name v (hopen j (List.mem_cons_self _ _)) h

theorem wake_keys (P : Platform) (now : Int) (env : FlushEnv)
    (s : AsyncMetricsWriter × Option String) :
    (AsyncMetricsWriter.wake P now env s).1.collector_.metrics_.map Prod.fst =
      s.1.collector_.metrics_.map Prod.fst := by
  unfold AsyncMetricsWriter.wake
  split_ifs
  · simp [MetricsCollector.flushToFile_fst, List.map_map, Function.comp_def]
  · rfl

theorem writer_record_new (w : AsyncMetricsWriter) (name : String) (v : Payload)
    (hn : name ∉ w.collector_.metrics_.map Prod.fst) :
    w.record name v =
      (RecordResult.ok,
        { w with
          collector_ :=
            { metrics_ := w.collector_.metrics_ ++ [(name, { value_ := v, valid_ := true })] },
          scheduledFlush_ := true }) := by
  have hf := (findEntry_eq_none_iff name w.collector_.metrics_).2 hn
  simp [AsyncMetricsWriter.record, MetricsCollector.record, hf]

/-- Records on names that are distinct and not yet in the map, interleaved
with any wakes of the background thread, all return normally. -/
theorem distinct_records_return (P : Platform) (events : List AsyncMetricsWriter.Event) :
    ∀ s : AsyncMetricsWriter × Option String,
      (∀ n ∈ recordNames events, n ∉ s.1.collector_.metrics_.map Prod.fst) →
      (recordNames events).Nodup →
      ∃ s', AsyncMetricsWriter.runEvents P s events = some s' := by
  induction events with
  | nil => intro s _ _; exact ⟨s, rfl⟩
  | cons e es ih =>
    intro s hnew hnd
    cases e with
    | record n v =>
      simp only [recordNames, List.nodup_cons] at hnd
      have hn : n ∉ s.1.collector_.metrics_.map Prod.fst :=
        hnew n (by simp [recordNames])
      simp only [AsyncMetricsWriter.runEvents, AsyncMetricsWriter.step,
        writer_record_new s.1 n v hn]
      apply ih _ _ hnd.2
      intro n' hn' hin
      simp only [List.map_append, List.map_cons, List.map_nil, List.mem_append,
        List.mem_singleton] at hin
      rcases hin with hin | hin
      · exact hnew n' (by simp [recordNames, hn']) hin
      · exact hnd.1 (hin ▸ hn')
    | wake now env =>
      simp only [AsyncMetricsWriter.runEvents, AsyncMetricsWriter.step]
      apply ih _ _ hnd
      intro n' hn'
      rw [wake_keys]
      exact hnew n' hn'

/-- C7: run any events from any writer state and file, every `record`
returning normally and every file open succeeding, then the destructor
(the joined thread's last wakes, then the final flush). For a name whose
last `record` carried `v`, the final file is the initial content, then
text, then one whole line written by a flush whose snapshot holds `name`
with `v`, then text; and the entry text of that line contains the quoted
name followed by the rendering of `v`. -/
theorem no_loss_at_shutdown (P : Platform) (w₀ : AsyncMetricsWriter) (file₀ : Option String)
    (events : List AsyncMetricsWriter.Event) (s : AsyncMetricsWriter × Option String)
    (joining : List (Int × FlushEnv)) (env : FlushEnv) (name : String) (v : Payload)
    (hrun : AsyncMetricsWriter.runEvents P (w₀, file₀) events = some s)
    (hopen : ∀ now e, AsyncMetricsWriter.Event.wake now e ∈ events → e.opens = true)
    (hjoin : ∀ j ∈ joining, j.2.opens = true) (henv : env.opens = true)
    (hlast : lastRecorded name events = some v) :
    ∃ (pre stamp : String) (snap : List (String × TypedMetricValue)) (post : String),
      (AsyncMetricsWriter.destructor P joining env s).2 =
        some (file₀.getD "" ++ pre ++ (stamp ++ writeEntries P (sortByName snap) ++ "\n")
          ++ post) ∧
      (name, ({ value_ := v, valid_ := true } : TypedMetricValue)) ∈ snap ∧
      ∃ a z : String, writeEntries P (sortByName snap) =
        a ++ (" \"" ++ name ++ "\" " ++
          TypedMetricValue.toString P { value_ := v, valid_ := true }) ++ z := by
  have hk := runEvents_last P (file₀.getD "") name v events (w₀, file₀) s hrun hopen hlast
    ⟨"", by simp⟩
  have hk1 : Kept P (file₀.getD "") name v
      (({ s.1 with running_ := false }, s.2) : AsyncMetricsWriter × Option String).1.collector_
      (({ s.1 with running_ := false }, s.2) : AsyncMetricsWriter × Option String).2 := hk
  have hk2 := joining_kept P (file₀.getD "") name v joining _ hjoin hk1
  have hfin := (flushToFile_kept P env _ _ (file₀.getD "") name v henv hk2).2
  obtain ⟨pre, stamp, snap, post, hf, hm⟩ := hfin
  refine ⟨pre, stamp, snap, post, ?_, hm, ?_⟩
  · simpa [AsyncMetricsWriter.destructor, lineText] using hf
  · exact writeEntries_mem P name _ _ ((sortByName_perm snap).mem_iff.2 hm)

theorem no_loss_at_shutdown_witness :
    (AsyncMetricsWriter.destructor ⟨fun _ => "", 1⟩ [] ⟨true, "T2"⟩
        (⟨⟨[("n1", ⟨.int 7, true⟩), ("n3", ⟨.string "z", false⟩), ("n2", ⟨.int 2, true⟩)]⟩,
          1000, true, true, 5⟩,
          some "T1 \"n1\" 1 \"n3\" \"z\"\n")).2 =
      some "T1 \"n1\" 1 \"n3\" \"z\"\nT2 \"n1\" 7 \"n2\" 2\n" ∧
    ∃ (pre stamp : String) (snap : List (String × TypedMetricValue)) (post : String),
      (AsyncMetricsWriter.destructor ⟨fun _ => "", 1⟩ [] ⟨true, "T2"⟩
        (⟨⟨[("n1", ⟨.int 7, true⟩), ("n3", ⟨.string "z", false⟩), ("n2", ⟨.int 2, true⟩)]⟩,
          1000, true, true, 5⟩,
          some "T1 \"n1\" 1 \"n3\" \"z\"\n")).2 =
        some ((some "").getD "" ++ pre ++
          (stamp ++ writeEntries ⟨fun _ => "", 1⟩ (sortByName snap) ++ "\n") ++ post) ∧
      ("n1", ({ value_ := .int 7, valid_ := true } : TypedMetricValue)) ∈ snap ∧
      ∃ a z : String, writeEntries ⟨fun _ => "", 1⟩ (sortByName snap) =
        a ++ (" \"" ++ "n1" ++ "\" " ++
          TypedMetricValue.toString ⟨fun _ => "", 1⟩ { value_ := .int 7, valid_ := true }) ++ z :=
  ⟨by decide,
   no_loss_at_shutdown ⟨fun _ => "", 1⟩ ⟨⟨[]⟩, 1000, true, false, 0⟩ (some "")
    [.record "n1" (.int 1), .record "n3" (.string "z"), .wake 5 ⟨true, "T1"⟩,
     .record "n2" (.int 2), .record "n1" (.int 7)]
    (⟨⟨[("n1", ⟨.int 7, true⟩), ("n3", ⟨.string "z", false⟩), ("n2", ⟨.int 2, true⟩)]⟩,
          1000, true, true, 5⟩,
      some "T1 \"n1\" 1 \"n3\" \"z\"\n")
    [] ⟨true, "T2"⟩ "n1" (.int 7) (by decide)
    (by intro now e h; simp at h; rw [h.2]) (by decide) (by decide) (by decide)⟩

/-! ## C9 -/

/-- C9: for a collector whose keys are distinct, the entries a flush writes
are a permutation of its snapshot and their names are strictly ascending
in the character-wise lexicographic order, whatever the order of the map.
Records for "b", "a", "c" made in that order on an empty collector, with
any values, give a line that lists "a", then "b", then "c". -/
theorem line_names_ascending (P : Platform) (c : MetricsCollector) (hc : c.WF) :
    (sortByName (snapshotLoop c.metrics_).1).Perm (snapshotLoop c.metrics_).1 ∧
    (sortByName (snapshotLoop c.metrics_).1).Pairwise
      (fun a b => a.1.toList < b.1.toList) ∧
    (∀ (v₁ v₂ v₃ : Payload) (stamp : String),
      lineText P stamp (snapshotLoop
        (((({ metrics_ := [] } : MetricsCollector).record "b" v₁).2.record "a" v₂).2.record
          "c" v₃).2.metrics_).1 =
      stamp ++ (" \"a\" " ++ TypedMetricValue.toString P ⟨v₂, true⟩ ++
        (" \"b\" " ++ TypedMetricValue.toString P ⟨v₁, true⟩ ++
        (" \"c\" " ++ TypedMetricValue.toString P ⟨v₃, true⟩ ++ ""))) ++ "\n") := by
  refine ⟨sortByName_perm _, sortByName_strict _ (snapshot_names_nodup c hc), ?_⟩
  intro v₁ v₂ v₃ stamp
  have hab : nameLess ("a", ⟨v₂, true⟩) ("b", ⟨v₁, true⟩) = true := by
    exact decide_eq_true (by decide : ("a" : String).toList < ("b" : String).toList)
  have hca : nameLess ("c", ⟨v₃, true⟩) ("a", ⟨v₂, true⟩) = false := by
    exact decide_eq_false (by decide : ¬ ("c" : String).toList < ("a" : String).toList)
  have hcb : nameLess ("c", ⟨v₃, true⟩) ("b", ⟨v₁, true⟩) = false := by
    exact decide_eq_false (by decide : ¬ ("c" : String).toList < ("b" : String).toList)
  have e1 : findEntry "a" [("b", (⟨v₁, true⟩ : TypedMetricValue))] = none := by
    simp [findEntry]
  have e2 : findEntry "c" [("b", (⟨v₁, true⟩ : TypedMetricValue)), ("a", ⟨v₂, true⟩)] = none := by
    simp [findEntry]
  simp [lineText, MetricsCollector.record, findEntry, e1, e2, snapshotLoop,
    TypedMetricValue.hasValue, TypedMetricValue.clone, sortByName, insertByName, hab, hca, hcb,
    writeEntries, String.append_assoc]

theorem line_names_ascending_witness :
    (sortByName (snapshotLoop
      [("b", ⟨.int 1, true⟩), ("z", ⟨.int 0, false⟩), ("a", ⟨.string "x", true⟩)]).1).Pairwise
      (fun a b => a.1.toList < b.1.toList) :=
  (line_names_ascending ⟨fun _ => "", 1⟩
    ⟨[("b", ⟨.int 1, true⟩), ("z", ⟨.int 0, false⟩), ("a", ⟨.string "x", true⟩)]⟩
    (by decide)).2.1

/-! ## C10 -/

theorem writeEntries_eq_foldr (P : Platform) (l : List (String × TypedMetricValue)) :
    writeEntries P l =
      (l.map (fun e => " \"" ++ e.1 ++ "\" " ++ e.2.toString P)).foldr (fun t r => t ++ r) "" := by
  induction l with
  | nil => rfl
  | cons e rest ih =>
    obtain ⟨k, h⟩ := e
    simp [writeEntries, ih, String.append_assoc]

/-- Format of the text a flush appends: for a collector with distinct keys, a non-empty snapshot and a successful open, the file after
`flushToFile` is the old content followed by the timestamp, then for each
snapshot entry in strictly ascending name order a space, the quoted name, a
space and `toString()`, then one newline. -/
theorem flush_appends_line (P : Platform) (env : FlushEnv) (c : MetricsCollector)
    (file : Option String) (hc : c.WF) (hne : (snapshotLoop c.metrics_).1 ≠ [])
    (ho : env.opens = true) :
    (c.flushToFile P env file).2 =
      some (file.getD "" ++ (env.stamp ++
        ((sortByName (snapshotLoop c.metrics_).1).map
          (fun e => " \"" ++ e.1 ++ "\" " ++ e.2.toString P)).foldr (fun t r => t ++ r) ""
        ++ "\n")) ∧
    (sortByName (snapshotLoop c.metrics_).1).Perm (snapshotLoop c.metrics_).1 ∧
    (sortByName (snapshotLoop c.metrics_).1).Pairwise
      (fun a b => a.1.toList < b.1.toList) := by
  refine ⟨?_, sortByName_perm _, sortByName_strict _ (snapshot_names_nodup c hc)⟩
  have hn : ¬ ((snapshotLoop c.metrics_).1 = [] ∨ env.opens = false) := by
    intro h
    rcases h with h | h
    · exact hne h
    · rw [ho] at h; exact Bool.noConfusion h
  rw [MetricsCollector.flushToFile_snd, if_neg hn, writeEntries_eq_foldr]
  simp [String.append_assoc]

theorem flush_appends_line_witness :
    ((⟨[("status", ⟨.string "OK", true⟩), ("CPU", ⟨.int 42, true⟩)]⟩ :
        MetricsCollector).flushToFile ⟨fun _ => "", 1⟩ ⟨true, "T"⟩ (some "old\n")).2 =
      some ((some "old\n").getD "" ++ ("T" ++
        ((sortByName (snapshotLoop
            [("status", ⟨.string "OK", true⟩), ("CPU", ⟨.int 42, true⟩)]).1).map
          (fun e => " \"" ++ e.1 ++ "\" " ++ e.2.toString ⟨fun _ => "", 1⟩)).foldr
            (fun t r => t ++ r) "" ++ "\n")) :=
  (flush_appends_line ⟨fun _ => "", 1⟩ ⟨true, "T"⟩
    ⟨[("status", ⟨.string "OK", true⟩), ("CPU", ⟨.int 42, true⟩)]⟩ (some "old\n")
    (by decide) (by decide) (by decide)).1

/-- C10, the scenario of the claim as the code runs it: after
`record("CPU", 42.5)` and `record("status", "OK")`, where the literal is a
`const char*`, a flush with timestamp `stamp` appends
`stamp "CPU" 42.5 "status" OK` and a newline: the text value is written
without its double quotes. With `std::string("OK")` the quotes are
written. -/
theorem flush_scenario_literal_unquoted :
    ((((({ metrics_ := [] } : MetricsCollector).record "CPU"
          (.double ⟨0x4045400000000000⟩)).2.record "status" (.cstr "OK")).2.flushToFile
        ⟨fun d => if d.bits = 0x4045400000000000 then "42.5" else "", 1000000⟩
        ⟨true, "2025-06-14 12:00:00"⟩ none).2 =
      some "2025-06-14 12:00:00 \"CPU\" 42.5 \"status\" OK\n") ∧
    ((((({ metrics_ := [] } : MetricsCollector).record "CPU"
          (.double ⟨0x4045400000000000⟩)).2.record "status" (.string "OK")).2.flushToFile
        ⟨fun d => if d.bits = 0x4045400000000000 then "42.5" else "", 1000000⟩
        ⟨true, "2025-06-14 12:00:00"⟩ none).2 =
      some "2025-06-14 12:00:00 \"CPU\" 42.5 \"status\" \"OK\"\n") := by
  constructor <;> decide

/-! ## C11 -/

theorem map_reset_of_all_stale (l : List (String × TypedMetricValue))
    (h : ∀ e ∈ l, e.2.hasValue = false) : l.map (fun e => (e.1, e.2.reset)) = l := by
  induction l with
  | nil => rfl
  | cons e rest ih =>
    have he := h e (List.mem_cons_self _ _)
    simp only [List.map_cons, reset_of_not_valid e.2 he]
    rw [ih (fun e' he' => h e' (List.mem_cons_of_mem _ he'))]

theorem snapshot_nil_of_all_stale (l : List (String × TypedMetricValue))
    (h : ∀ e ∈ l, e.2.hasValue = false) : (snapshotLoop l).1 = [] := by
  rw [snapshotLoop_fst, List.filter_eq_nil_iff]
  intro e he
  simp [h e he]

/-- C11: when no holder of the collector has `hasValue()` (in particular
when the map is empty), `flushToFile` returns the collector and the file
exactly as they were, whether or not the file could be opened: nothing is
appended, and a file that does not exist is not created. -/
theorem flush_without_fresh_is_noop (P : Platform) (env : FlushEnv) (c : MetricsCollector)
    (file : Option String) (h : ∀ e ∈ c.metrics_, e.2.hasValue = false) :
    c.flushToFile P env file = (c, file) ∧
    (c.flushToFile P env none).2 = none ∧
    (∀ env' : FlushEnv, c.flushToFile P env' file = c.flushToFile P env file) := by
  have key : ∀ (e : FlushEnv) (f : Option String), c.flushToFile P e f = (c, f) := by
    intro e f
    apply Prod.ext
    · rw [MetricsCollector.flushToFile_fst]
      simp only [map_reset_of_all_stale c.metrics_ h]
    · rw [MetricsCollector.flushToFile_snd]
      simp [snapshot_nil_of_all_stale c.metrics_ h]
  refine ⟨key env file, ?_, ?_⟩
  · rw [key env none]
  · intro env'
    rw [key env' file, key env file]

theorem flush_without_fresh_is_noop_witness :
    (⟨[("a", ⟨.int 1, false⟩), ("b", ⟨.string "x", false⟩)]⟩ : MetricsCollector).flushToFile
        ⟨fun _ => "", 1⟩ ⟨true, "T"⟩ none =
      (⟨[("a", ⟨.int 1, false⟩), ("b", ⟨.string "x", false⟩)]⟩, none) :=
  (flush_without_fresh_is_noop ⟨fun _ => "", 1⟩ ⟨true, "T"⟩
    ⟨[("a", ⟨.int 1, false⟩), ("b", ⟨.string "x", false⟩)]⟩ none (by decide)).1

/-! ## C12 -/

/-- C12: when the file cannot be opened, `flushToFile` still returns (the
function is total and has no error result), the file is as it was, every
holder has `hasValue() = false` afterwards, and through any further
operations among which no `record` on `name` returns normally the entries a
later flush writes do not include `name`. -/
theorem failed_open_drops_cycle (P : Platform) (env : FlushEnv) (c : MetricsCollector)
    (file : Option String) (ho : env.opens = false) :
    (c.flushToFile P env file).2 = file ∧
    (∀ e ∈ (c.flushToFile P env file).1.metrics_, e.2.hasValue = false) ∧
    (∀ (name : String) (ops : List Op),
      noRecordOn P name (c.flushToFile P env file) ops →
      name ∉ (sortByName (snapshotLoop
        (applyOps P (c.flushToFile P env file) ops).1.metrics_).1).map Prod.fst) := by
  refine ⟨?_, ?_, ?_⟩
  · rw [MetricsCollector.flushToFile_snd]
    simp [ho]
  · rw [MetricsCollector.flushToFile_fst]
    exact all_stale_after_reset _
  · intro name ops hq hin
    have hin' := ((sortByName_perm _).map Prod.fst).mem_iff.1 hin
    rw [snapshotLoop_fst] at hin'
    obtain ⟨e, he, hname⟩ := List.mem_map.1 hin'
    obtain ⟨hel, hev⟩ := List.mem_filter.1 he
    have := stale_after_flush P c env file name ops hq e hel hname
    rw [this] at hev
    exact Bool.noConfusion hev

theorem failed_open_drops_cycle_witness :
    ((⟨[("a", ⟨.int 1, true⟩)]⟩ : MetricsCollector).flushToFile ⟨fun _ => "", 1⟩
        ⟨false, "T"⟩ (some "old\n")).2 = some "old\n" ∧
    "a" ∉ (sortByName (snapshotLoop
      (applyOps ⟨fun _ => "", 1⟩
        ((⟨[("a", ⟨.int 1, true⟩)]⟩ : MetricsCollector).flushToFile ⟨fun _ => "", 1⟩
          ⟨false, "T"⟩ (some "old\n"))
        [Op.record "b" (.int 2), Op.flush ⟨true, "U"⟩]).1.metrics_).1).map Prod.fst ∧
    ((applyOps ⟨fun _ => "", 1⟩
        ((⟨[("a", ⟨.int 1, true⟩)]⟩ : MetricsCollector).flushToFile ⟨fun _ => "", 1⟩
          ⟨false, "T"⟩ (some "old\n"))
        [Op.record "b" (.int 2), Op.flush ⟨true, "U"⟩]).2 = some "old\nU \"b\" 2\n") :=
  ⟨(failed_open_drops_cycle ⟨fun _ => "", 1⟩ ⟨false, "T"⟩ ⟨[("a", ⟨.int 1, true⟩)]⟩
      (some "old\n") rfl).1,
   (failed_open_drops_cycle ⟨fun _ => "", 1⟩ ⟨false, "T"⟩ ⟨[("a", ⟨.int 1, true⟩)]⟩
      (some "old\n") rfl).2.2 "a" [Op.record "b" (.int 2), Op.flush ⟨true, "U"⟩]
      ⟨by decide, trivial, trivial⟩,
   by decide⟩

theorem digitValue_digitChar (k : Nat) (hk : k < 10) : digitValue (Nat.digitChar k) = k := by
  interval_cases k <;> decide

theorem isDecimalDigit_digitChar (k : Nat) (hk : k < 10) :
    isDecimalDigit (Nat.digitChar k) = true := by
  interval_cases k <;> decide

theorem decimalValueAux_eq (cs : List Char) :
    ∀ acc : Nat, decimalValueAux acc cs = acc * 10 ^ cs.length + decimalValueAux 0 cs := by
  induction cs with
  | nil =>
    intro acc
    show acc = acc * 10 ^ 0 + 0
    rw [Nat.pow_zero, Nat.mul_one, Nat.add_zero]
  | cons c rest ih =>
    intro acc
    show decimalValueAux (acc * 10 + digitValue c) rest =
      acc * 10 ^ (rest.length + 1) + decimalValueAux (0 * 10 + digitValue c) rest
    rw [ih (acc * 10 + digitValue c), ih (0 * 10 + digitValue c), pow_succ]
    generalize digitValue c = d
    generalize decimalValueAux 0 rest = r
    generalize 10 ^ rest.length = p
    ring

theorem decimalValueAux_cons (acc : Nat) (c : Char) (cs : List Char) :
    decimalValueAux acc (c :: cs) = decimalValueAux (acc * 10 + digitValue c) cs := rfl

theorem toDigitsCore_value (fuel : Nat) :
    ∀ (n : Nat) (ds : List Char), n < fuel →
      decimalValueAux 0 (Nat.toDigitsCore 10 fuel n ds) =
        n * 10 ^ ds.length + decimalValueAux 0 ds := by
  induction fuel with
  | zero => intro n ds h; exact absurd h (Nat.not_lt_zero n)
  | succ fuel ih =>
    intro n ds h
    simp only [Nat.toDigitsCore]
    have hd : digitValue (Nat.digitChar (n % 10)) = n % 10 :=
      digitValue_digitChar _ (Nat.mod_lt _ (by decide))
    by_cases h0 : n / 10 = 0
    · rw [if_pos h0, decimalValueAux_cons, decimalValueAux_eq, hd]
      have : n % 10 = n := Nat.mod_eq_of_lt (by omega)
      rw [this]
      generalize decimalValueAux 0 ds = r
      generalize 10 ^ ds.length = p
      ring
    · rw [if_neg h0, ih (n / 10) _ (by omega), decimalValueAux_cons, List.length_cons,
        decimalValueAux_eq, hd]
      have := Nat.div_add_mod n 10
      have hn : n * 10 ^ ds.length = (10 * (n / 10) + n % 10) * 10 ^ ds.length := by rw [this]
      rw [hn, pow_succ]
      generalize decimalValueAux 0 ds = r
      generalize 10 ^ ds.length = p
      generalize n / 10 = q
      generalize n % 10 = t
      ring

theorem toDigitsCore_digits (fuel : Nat) :
    ∀ (n : Nat) (ds : List Char), (∀ c ∈ ds, isDecimalDigit c = true) →
      ∀ c ∈ Nat.toDigitsCore 10 fuel n ds, isDecimalDigit c = true := by
  induction fuel with
  | zero => intro n ds h; simpa [Nat.toDigitsCore] using h
  | succ fuel ih =>
    intro n ds h
    have hds : ∀ c ∈ Nat.digitChar (n % 10) :: ds, isDecimalDigit c = true := by
      intro c hc
      rcases List.mem_cons.1 hc with rfl | hc
      · exact isDecimalDigit_digitChar _ (Nat.mod_lt _ (by decide))
      · exact h c hc
    simp only [Nat.toDigitsCore]
    by_cases h0 : n / 10 = 0
    · simpa [h0] using hds
    · simp only [h0, if_false]
      exact ih _ _ hds

theorem repr_decimal (m : Nat) :
    (∀ c ∈ (Nat.repr m).toList, isDecimalDigit c = true) ∧
    decimalValueAux 0 (Nat.repr m).toList = m := by
  constructor
  · exact toDigitsCore_digits (m + 1) m [] (by simp)
  · have h := toDigitsCore_value (m + 1) m [] (Nat.lt_succ_self m)
    have h0 : m * 10 ^ ([] : List Char).length + decimalValueAux 0 [] = m := by
      show m * 10 ^ 0 + 0 = m
      rw [Nat.pow_zero, Nat.mul_one, Nat.add_zero]
    exact h.trans h0

/-! ## C13 -/

/-- C13: for every `std::string` payload `s`, whatever characters it holds,
`toString()` is a double quote, `s` unchanged, a double quote. For every
`int` payload `n`, `toString()` is `-` followed by the numeral of `-n` when
`n` is negative and the numeral of `n` otherwise, where the numeral
consists of decimal digits whose value is the number. -/
theorem toString_text_and_int (P : Platform) :
    (∀ (s : String) (valid : Bool),
      TypedMetricValue.toString P ⟨.string s, valid⟩ = "\"" ++ s ++ "\"") ∧
    (∀ (n : Int) (valid : Bool),
      TypedMetricValue.toString P ⟨.int n, valid⟩ =
        (if n < 0 then "-" else "") ++ Nat.repr n.natAbs ∧
      (∀ c ∈ (Nat.repr n.natAbs).toList, isDecimalDigit c = true) ∧
      decimalValueAux 0 (Nat.repr n.natAbs).toList = n.natAbs) ∧
    TypedMetricValue.toString P ⟨.string "say \"hi\"", true⟩ = "\"say \"hi\"\"" ∧
    TypedMetricValue.toString P ⟨.int (-42), true⟩ = "-42" ∧
    TypedMetricValue.toString P ⟨.int 0, true⟩ = "0" ∧
    TypedMetricValue.toString P ⟨.int 2147483647, true⟩ = "2147483647" := by
  refine ⟨fun s valid => rfl, ?_, rfl, ?_, ?_, ?_⟩
  rotate_left
  · show renderInt (-42) = "-42"
    decide
  · show renderInt 0 = "0"
    decide
  · show renderInt 2147483647 = "2147483647"
    decide
  intro n valid
  refine ⟨?_, (repr_decimal n.natAbs).1, (repr_decimal n.natAbs).2⟩
  show renderInt n = _
  unfold renderInt
  by_cases hn : n < 0
  · simp [hn]
  · have : n.toNat = n.natAbs := by omega
    simp [hn, this]

/-! ## C14 -/

theorem writeEntries_count_newline (P : Platform) (l : List (String × TypedMetricValue))
    (h : ∀ e ∈ l, '\n' ∉ e.1.toList ∧ '\n' ∉ (e.2.toString P).toList) :
    (writeEntries P l).toList.count '\n' = 0 := by
  induction l with
  | nil => rfl
  | cons e rest ih =>
    obtain ⟨k, v⟩ := e
    have he := h (k, v) (List.mem_cons_self _ _)
    have hr := ih (fun e' he' => h e' (List.mem_cons_of_mem _ he'))
    have h1 : List.count '\n' k.data = 0 := List.count_eq_zero_of_not_mem he.1
    have h2 : List.count '\n' (TypedMetricValue.toString P v).data = 0 :=
      List.count_eq_zero_of_not_mem he.2
    simp only [writeEntries, String.toList, String.data_append, List.count_append] at hr ⊢
    rw [hr, h1, h2]
    decide

theorem lineText_toList (P : Platform) (stamp : String)
    (snapshot : List (String × TypedMetricValue)) :
    (lineText P stamp snapshot).toList =
      stamp.toList ++ (writeEntries P (sortByName snapshot)).toList ++ ['\n'] := by
  simp [lineText, String.toList, String.data_append]

/-- C14, as the code has it: a flush of a non-empty snapshot with a
successful open appends one text that ends with a newline; when the
timestamp, the names and the rendered values of the snapshot contain no
newline, that final newline is the only one. -/
theorem flush_appends_one_line (P : Platform) (env : FlushEnv) (c : MetricsCollector)
    (file : Option String) (hne : (snapshotLoop c.metrics_).1 ≠ [])
    (ho : env.opens = true) :
    (c.flushToFile P env file).2 =
      some (file.getD "" ++ lineText P env.stamp (snapshotLoop c.metrics_).1) ∧
    (lineText P env.stamp (snapshotLoop c.metrics_).1).toList.getLast? = some '\n' ∧
    ('\n' ∉ env.stamp.toList →
      (∀ e ∈ (snapshotLoop c.metrics_).1,
        '\n' ∉ e.1.toList ∧ '\n' ∉ (e.2.toString P).toList) →
      (lineText P env.stamp (snapshotLoop c.metrics_).1).toList.count '\n' = 1) := by
  refine ⟨?_, ?_, ?_⟩
  · have hn : ¬ ((snapshotLoop c.metrics_).1 = [] ∨ env.opens = false) := by
      intro h
      rcases h with h | h
      · exact hne h
      · rw [ho] at h; exact Bool.noConfusion h
    rw [MetricsCollector.flushToFile_snd, if_neg hn]
    simp [lineText, String.append_assoc]
  · rw [lineText_toList]
    simp
  · intro hs hent
    rw [lineText_toList, List.count_append, List.count_append,
      List.count_eq_zero_of_not_mem hs,
      writeEntries_count_newline P _
        (fun e he => hent e ((sortByName_perm _).mem_iff.1 he))]
    decide

theorem flush_appends_one_line_witness :
    (lineText ⟨fun _ => "", 1⟩ "2025-06-14 12:00:00"
      (snapshotLoop [("b", ⟨.int 7, true⟩), ("a", ⟨.string "x y", true⟩)]).1).toList.count
        '\n' = 1 :=
  (flush_appends_one_line ⟨fun _ => "", 1⟩ ⟨true, "2025-06-14 12:00:00"⟩
    ⟨[("b", ⟨.int 7, true⟩), ("a", ⟨.string "x y", true⟩)]⟩ none (by decide) rfl).2.2
    (by decide) (by decide)

/-- C14 as stated fails: one flush of a snapshot whose text value holds a
newline appends a text with two newlines, and so does one whose metric name
holds a newline. -/
theorem flush_text_with_newline_two_lines :
    ((⟨[("m", ⟨.string "x\ny", true⟩)]⟩ : MetricsCollector).flushToFile ⟨fun _ => "", 1⟩
        ⟨true, "T"⟩ none).2 = some "T \"m\" \"x\ny\"\n" ∧
    ("T \"m\" \"x\ny\"\n" : String).toList.count '\n' = 2 ∧
    ((⟨[("p\nq", ⟨.int 1, true⟩)]⟩ : MetricsCollector).flushToFile ⟨fun _ => "", 1⟩
        ⟨true, "T"⟩ none).2 = some "T \"p\nq\" 1\n" ∧
    ("T \"p\nq\" 1\n" : String).toList.count '\n' = 2 := by
  refine ⟨?_, ?_, ?_, ?_⟩ <;> decide

/-! ## The flush test of the loop -/

theorem wake_of_due (P : Platform) (now : Int) (env : FlushEnv)
    (s : AsyncMetricsWriter × Option String)
    (h : s.1.scheduledFlush_ = true ∨ now - s.1.lastFlush ≥ s.1.flushIntervalMs_ * P.ticksPerMs) :
    AsyncMetricsWriter.wake P now env s =
      ({ s.1 with
          collector_ := (s.1.collector_.flushToFile P env s.2).1,
          lastFlush := now,
          scheduledFlush_ := false },
        (s.1.collector_.flushToFile P env s.2).2) := by
  unfold AsyncMetricsWriter.wake
  have hc : (s.1.scheduledFlush_ ||
      decide (now - s.1.lastFlush ≥ s.1.flushIntervalMs_ * P.ticksPerMs)) = true := by
    rcases h with h | h
    · simp [h]
    · simp [h]
  rw [if_pos hc]

theorem wake_of_not_due (P : Platform) (now : Int) (env : FlushEnv)
    (s : AsyncMetricsWriter × Option String)
    (h : ¬ (s.1.scheduledFlush_ = true ∨
      now - s.1.lastFlush ≥ s.1.flushIntervalMs_ * P.ticksPerMs)) :
    AsyncMetricsWriter.wake P now env s = s := by
  unfold AsyncMetricsWriter.wake
  have hc : ¬ (s.1.scheduledFlush_ ||
      decide (now - s.1.lastFlush ≥ s.1.flushIntervalMs_ * P.ticksPerMs)) = true := by
    intro hc
    apply h
    simpa using hc
  rw [if_neg hc]

theorem wake_running (P : Platform) (now : Int) (env : FlushEnv)
    (s : AsyncMetricsWriter × Option String) :
    (AsyncMetricsWriter.wake P now env s).1.running_ = s.1.running_ := by
  unfold AsyncMetricsWriter.wake
  split_ifs <;> rfl

/-! ## C17 -/

/-- C17: when `wait_for` has returned at time `now`, the body of the loop
calls `flushToFile` exactly when `scheduledFlush_` is set or
`now - lastFlush` is at least the interval: in that case the collector and
the file are those `flushToFile` returns, `scheduledFlush_` is false and
`lastFlush` is `now`; otherwise the writer, with its flag, its `lastFlush`
and its collector, and the file are unchanged. A `record` that returns
leaves `scheduledFlush_` set. -/
theorem wake_flushes_iff_due (P : Platform) (now : Int) (env : FlushEnv)
    (s : AsyncMetricsWriter × Option String) :
    ((s.1.scheduledFlush_ = true ∨
        now - s.1.lastFlush ≥ s.1.flushIntervalMs_ * P.ticksPerMs) →
      (AsyncMetricsWriter.wake P now env s).1.collector_ =
        (s.1.collector_.flushToFile P env s.2).1 ∧
      (AsyncMetricsWriter.wake P now env s).2 = (s.1.collector_.flushToFile P env s.2).2 ∧
      (AsyncMetricsWriter.wake P now env s).1.scheduledFlush_ = false ∧
      (AsyncMetricsWriter.wake P now env s).1.lastFlush = now) ∧
    (¬ (s.1.scheduledFlush_ = true ∨
        now - s.1.lastFlush ≥ s.1.flushIntervalMs_ * P.ticksPerMs) →
      AsyncMetricsWriter.wake P now env s = s) ∧
    (∀ (name : String) (v : Payload), (s.1.record name v).1 = RecordResult.ok →
      (s.1.record name v).2.scheduledFlush_ = true) := by
  refine ⟨?_, wake_of_not_due P now env s, ?_⟩
  · intro h
    rw [wake_of_due P now env s h]
    exact ⟨rfl, rfl, rfl, rfl⟩
  · intro name v hok
    unfold AsyncMetricsWriter.record at hok ⊢
    cases hr : s.1.collector_.record name v with
    | mk r c =>
      rw [hr] at hok
      cases r with
      | ok => rfl
      | error e => simp at hok

theorem wake_flushes_iff_due_witness :
    (AsyncMetricsWriter.wake ⟨fun _ => "", 1000000⟩ 1500000000 ⟨true, "T"⟩
        (⟨⟨[("a", ⟨.int 1, true⟩)]⟩, 1000, true, false, 400000000⟩, none)).2 =
      ((⟨[("a", ⟨.int 1, true⟩)]⟩ : MetricsCollector).flushToFile ⟨fun _ => "", 1000000⟩
        ⟨true, "T"⟩ none).2 ∧
    AsyncMetricsWriter.wake ⟨fun _ => "", 1000000⟩ 1300000000 ⟨true, "T"⟩
        (⟨⟨[("a", ⟨.int 1, true⟩)]⟩, 1000, true, false, 400000000⟩, none) =
      (⟨⟨[("a", ⟨.int 1, true⟩)]⟩, 1000, true, false, 400000000⟩, none) :=
  ⟨((wake_flushes_iff_due ⟨fun _ => "", 1000000⟩ 1500000000 ⟨true, "T"⟩
      (⟨⟨[("a", ⟨.int 1, true⟩)]⟩, 1000, true, false, 400000000⟩, none)).1
      (Or.inr (by decide))).2.1,
   (wake_flushes_iff_due ⟨fun _ => "", 1000000⟩ 1300000000 ⟨true, "T"⟩
      (⟨⟨[("a", ⟨.int 1, true⟩)]⟩, 1000, true, false, 400000000⟩, none)).2.1 (by decide)⟩

/-! ## C16 -/

/-- C16 as stated fails: the writer is running when the pass starts; while
the thread waits a producer records `a` and the destructor clears
`running_`; at the wake `running_` is false and `scheduledFlush_` is set,
and the pass appends the line of `a` before the loop is left. -/
theorem stopped_wake_still_flushes :
    (AsyncMetricsWriter.atWake ⟨[.record "a" (.int 1), .stop], 5, ⟨true, "T"⟩⟩
        (⟨⟨[]⟩, 1000, true, false, 0⟩, none)).1.running_ = false ∧
    (AsyncMetricsWriter.atWake ⟨[.record "a" (.int 1), .stop], 5, ⟨true, "T"⟩⟩
        (⟨⟨[]⟩, 1000, true, false, 0⟩, none)).2 = none ∧
    (AsyncMetricsWriter.iteration ⟨fun _ => "", 1000000⟩
        ⟨[.record "a" (.int 1), .stop], 5, ⟨true, "T"⟩⟩
        (⟨⟨[]⟩, 1000, true, false, 0⟩, none)).2 = some "T \"a\" 1\n" ∧
    AsyncMetricsWriter.run ⟨fun _ => "", 1000000⟩ 0
        [⟨[.record "a" (.int 1), .stop], 5, ⟨true, "T"⟩⟩, ⟨[], 9, ⟨true, "U"⟩⟩]
        (⟨⟨[]⟩, 1000, true, false, 0⟩, none) =
      (⟨⟨[("a", ⟨.int 1, false⟩)]⟩, 1000, false, false, 5⟩, some "T \"a\" 1\n") := by
  refine ⟨?_, ?_, ?_, ?_⟩ <;> decide

/-- C16, as the code has it: when `running_` is false at the wake, the pass
still makes the flush test: it calls `flushToFile` when `scheduledFlush_`
is set or the interval has elapsed, and leaves everything unchanged
otherwise; in both cases the loop is left right after this pass. -/
theorem stopped_wake_flush_test_then_exit (P : Platform) (wt : Wait) (rest : List Wait)
    (s : AsyncMetricsWriter × Option String) (hrun : s.1.running_ = true)
    (hstop : (AsyncMetricsWriter.atWake wt s).1.running_ = false) :
    AsyncMetricsWriter.runLoop P (wt :: rest) s = AsyncMetricsWriter.iteration P wt s ∧
    (((AsyncMetricsWriter.atWake wt s).1.scheduledFlush_ = true ∨
        wt.now - (AsyncMetricsWriter.atWake wt s).1.lastFlush ≥
          (AsyncMetricsWriter.atWake wt s).1.flushIntervalMs_ * P.ticksPerMs) →
      (AsyncMetricsWriter.iteration P wt s).1.collector_ =
        ((AsyncMetricsWriter.atWake wt s).1.collector_.flushToFile P wt.env
          (AsyncMetricsWriter.atWake wt s).2).1 ∧
      (AsyncMetricsWriter.iteration P wt s).2 =
        ((AsyncMetricsWriter.atWake wt s).1.collector_.flushToFile P wt.env
          (AsyncMetricsWriter.atWake wt s).2).2) ∧
    (¬ ((AsyncMetricsWriter.atWake wt s).1.scheduledFlush_ = true ∨
        wt.now - (AsyncMetricsWriter.atWake wt s).1.lastFlush ≥
          (AsyncMetricsWriter.atWake wt s).1.flushIntervalMs_ * P.ticksPerMs) →
      AsyncMetricsWriter.iteration P wt s = AsyncMetricsWriter.atWake wt s) := by
  refine ⟨?_, ?_, ?_⟩
  · have hr : (AsyncMetricsWriter.iteration P wt s).1.running_ = false := by
      unfold AsyncMetricsWriter.iteration
      rw [wake_running]
      exact hstop
    simp only [AsyncMetricsWriter.runLoop, hrun, if_true]
    cases rest with
    | nil => rfl
    | cons w r => simp [AsyncMetricsWriter.runLoop, hr]
  · intro h
    unfold AsyncMetricsWriter.iteration
    rw [wake_of_due P wt.now wt.env _ h]
    exact ⟨rfl, rfl⟩
  · intro h
    unfold AsyncMetricsWriter.iteration
    exact wake_of_not_due P wt.now wt.env _ h

theorem stopped_wake_flush_test_then_exit_witness :
    AsyncMetricsWriter.runLoop ⟨fun _ => "", 1000000⟩
        [⟨[.stop], 5, ⟨true, "T"⟩⟩, ⟨[], 2000000000, ⟨true, "U"⟩⟩]
        (⟨⟨[("a", ⟨.int 1, true⟩)]⟩, 1000, true, false, 0⟩, none) =
      AsyncMetricsWriter.iteration ⟨fun _ => "", 1000000⟩ ⟨[.stop], 5, ⟨true, "T"⟩⟩
        (⟨⟨[("a", ⟨.int 1, true⟩)]⟩, 1000, true, false, 0⟩, none) ∧
    AsyncMetricsWriter.iteration ⟨fun _ => "", 1000000⟩ ⟨[.stop], 5, ⟨true, "T"⟩⟩
        (⟨⟨[("a", ⟨.int 1, true⟩)]⟩, 1000, true, false, 0⟩, none) =
      AsyncMetricsWriter.atWake ⟨[.stop], 5, ⟨true, "T"⟩⟩
        (⟨⟨[("a", ⟨.int 1, true⟩)]⟩, 1000, true, false, 0⟩, none) :=
  ⟨(stopped_wake_flush_test_then_exit ⟨fun _ => "", 1000000⟩ ⟨[.stop], 5, ⟨true, "T"⟩⟩
      [⟨[], 2000000000, ⟨true, "U"⟩⟩]
      (⟨⟨[("a", ⟨.int 1, true⟩)]⟩, 1000, true, false, 0⟩, none) rfl (by decide)).1,
   (stopped_wake_flush_test_then_exit ⟨fun _ => "", 1000000⟩ ⟨[.stop], 5, ⟨true, "T"⟩⟩
      [⟨[], 2000000000, ⟨true, "U"⟩⟩]
      (⟨⟨[("a", ⟨.int 1, true⟩)]⟩, 1000, true, false, 0⟩, none) rfl (by decide)).2.2
      (by decide)⟩

/-! ## C18 -/

/-- C18, the code at the claim's input: a `const char*` payload, which is
what a string literal argument is, is rendered by `toString()` as its bare
characters, so `record("status", "OK")` followed by a flush appends
`"status" OK` without quotes around `OK`, while the `std::string` payload
with the same characters is written as `"OK"`. -/
theorem literal_text_written_unquoted (P : Platform) :
    (∀ (s : String) (valid : Bool), TypedMetricValue.toString P ⟨.cstr s, valid⟩ = s) ∧
    ((({ metrics_ := [] } : MetricsCollector).record "status" (.cstr "OK")).1 =
      RecordResult.ok) ∧
    (((({ metrics_ := [] } : MetricsCollector).record "status" (.cstr "OK")).2.flushToFile P
        ⟨true, "T"⟩ none).2 = some "T \"status\" OK\n") ∧
    (((({ metrics_ := [] } : MetricsCollector).record "status" (.string "OK")).2.flushToFile P
        ⟨true, "T"⟩ none).2 = some "T \"status\" \"OK\"\n") := by
  refine ⟨fun s valid => rfl, rfl, rfl, rfl⟩

/-! ## C20 -/

/-- C20: the rendering of a line is not injective. The snapshot with the
one integer metric named `a" 1 "b` of value 2 and the snapshot with the two
integer metrics `a` = 1 and `b` = 2 are different and non-empty, and a
flush writes the same text for both: the body of the line
is ` "a" 1 "b" 2`. -/
theorem line_rendering_not_injective (P : Platform) :
    ([("a\" 1 \"b", (⟨.int 2, true⟩ : TypedMetricValue))] ≠
      [("a", ⟨.int 1, true⟩), ("b", ⟨.int 2, true⟩)]) ∧
    writeEntries P (sortByName [("a\" 1 \"b", ⟨.int 2, true⟩)]) = " \"a\" 1 \"b\" 2" ∧
    writeEntries P (sortByName [("a", ⟨.int 1, true⟩), ("b", ⟨.int 2, true⟩)]) =
      " \"a\" 1 \"b\" 2" ∧
    (∀ (env : FlushEnv) (file : Option String),
      ((⟨[("a\" 1 \"b", ⟨.int 2, true⟩)]⟩ : MetricsCollector).flushToFile P env file).2 =
        ((⟨[("a", ⟨.int 1, true⟩), ("b", ⟨.int 2, true⟩)]⟩ :
            MetricsCollector).flushToFile P env file).2) := by
  refine ⟨by decide, rfl, rfl, ?_⟩
  intro env file
  · have h1 : writeEntries P (sortByName [("a\" 1 \"b", ⟨.int 2, true⟩)]) =
        writeEntries P (sortByName [("a", ⟨.int 1, true⟩), ("b", ⟨.int 2, true⟩)]) := rfl
    simp only [MetricsCollector.flushToFile_snd]
    have e1 : (snapshotLoop [("a\" 1 \"b", (⟨.int 2, true⟩ : TypedMetricValue))]).1 =
        [("a\" 1 \"b", ⟨.int 2, true⟩)] := rfl
    have e2 : (snapshotLoop [("a", (⟨.int 1, true⟩ : TypedMetricValue)),
        ("b", ⟨.int 2, true⟩)]).1 = [("a", ⟨.int 1, true⟩), ("b", ⟨.int 2, true⟩)] := rfl
    rw [e1, e2, h1]
    simp

/-! ## The line as a function of the fresh pairs -/

theorem mem_snapshot_iff (c : MetricsCollector) (e : String × TypedMetricValue) :
    e ∈ (snapshotLoop c.metrics_).1 ↔
      e.2.hasValue = true ∧ (e.1, e.2.value_) ∈ freshPairs c := by
  rw [snapshotLoop_fst]
  unfold freshPairs
  constructor
  · intro he
    exact ⟨(List.mem_filter.1 he).2, List.mem_map.2 ⟨e, he, rfl⟩⟩
  · rintro ⟨hv, hp⟩
    obtain ⟨e', he', heq⟩ := List.mem_map.1 hp
    have hv' := (List.mem_filter.1 he').2
    have : e' = e := by
      obtain ⟨k', ⟨x', b'⟩⟩ := e'
      obtain ⟨k, ⟨x, b⟩⟩ := e
      simp only [TypedMetricValue.hasValue] at hv hv'
      simp only [Prod.mk.injEq] at heq
      simp only [hv] at *
      simp only [hv'] at *
      rw [heq.1, heq.2]
    rw [← this]
    exact he'

theorem snapshot_perm_of_same_fresh (c₁ c₂ : MetricsCollector) (h₁ : c₁.WF) (h₂ : c₂.WF)
    (h : ∀ p, p ∈ freshPairs c₁ ↔ p ∈ freshPairs c₂) :
    (snapshotLoop c₁.metrics_).1.Perm (snapshotLoop c₂.metrics_).1 := by
  apply (List.perm_ext_iff_of_nodup (snapshot_names_nodup c₁ h₁).of_map
    (snapshot_names_nodup c₂ h₂).of_map).2
  intro e
  rw [mem_snapshot_iff, mem_snapshot_iff, h]

theorem flush_file_of_same_fresh (P : Platform) (c₁ c₂ : MetricsCollector) (h₁ : c₁.WF)
    (h₂ : c₂.WF) (h : ∀ p, p ∈ freshPairs c₁ ↔ p ∈ freshPairs c₂)
    (env : FlushEnv) (file : Option String) :
    (c₁.flushToFile P env file).2 = (c₂.flushToFile P env file).2 := by
  have hp := snapshot_perm_of_same_fresh c₁ c₂ h₁ h₂ h
  have hs := sortByName_congr _ _ (snapshot_names_nodup c₂ h₂) hp
  have hnil : (snapshotLoop c₁.metrics_).1 = [] ↔ (snapshotLoop c₂.metrics_).1 = [] := by
    constructor
    · intro h0; rw [h0] at hp; exact hp.symm.eq_nil
    · intro h0; rw [h0] at hp; exact hp.eq_nil
  rw [MetricsCollector.flushToFile_snd, MetricsCollector.flushToFile_snd, hs]
  by_cases h0 : (snapshotLoop c₂.metrics_).1 = []
  · simp [h0, hnil.2 h0]
  · have h0' : ¬ (snapshotLoop c₁.metrics_).1 = [] := fun hh => h0 (hnil.1 hh)
    simp [h0, h0']

/-- The holder `record` leaves under the recorded name, from the holder
found there before. -/
theorem record_find_same (c : MetricsCollector) (n : String) (v : Payload) :
    (c.record n v).2.find n =
      match c.find n with
      | none => some { value_ := v, valid_ := true }
      | some held =>
        if held.value_.type = v.type then some { value_ := v, valid_ := true }
        else some held := by
  unfold MetricsCollector.record MetricsCollector.find
  cases hf : findEntry n c.metrics_ with
  | none => simp [findEntry_append, hf, findEntry]
  | some held =>
    by_cases ht : held.value_.type = v.type
    · simp only [ht, if_true]
      rw [findEntry_assignEntry_self _ _ _ (by simp [hf])]
      rfl
    · simp [ht, hf]

theorem record_record_find_comm (c : MetricsCollector) (n₁ n₂ : String) (v₁ v₂ : Payload)
    (hn : n₁ ≠ n₂) (m : String) :
    ((c.record n₁ v₁).2.record n₂ v₂).2.find m =
      ((c.record n₂ v₂).2.record n₁ v₁).2.find m := by
  by_cases h2 : m = n₂
  · subst h2
    rw [record_find_same, MetricsCollector.record_find_ne _ _ _ _ hn.symm,
      MetricsCollector.record_find_ne _ _ _ _ hn.symm, record_find_same]
  · rw [MetricsCollector.record_find_ne _ _ _ _ h2]
    by_cases h1 : m = n₁
    · subst h1
      rw [record_find_same, record_find_same, MetricsCollector.record_find_ne _ _ _ _ h2]
    · rw [MetricsCollector.record_find_ne _ _ _ _ h1, MetricsCollector.record_find_ne _ _ _ _ h1,
        MetricsCollector.record_find_ne _ _ _ _ h2]

theorem mem_freshPairs_iff (c : MetricsCollector) (hc : c.WF) (n : String) (v : Payload) :
    (n, v) ∈ freshPairs c ↔ c.find n = some { value_ := v, valid_ := true } := by
  unfold freshPairs MetricsCollector.find
  constructor
  · intro hp
    obtain ⟨e, he, heq⟩ := List.mem_map.1 hp
    obtain ⟨hel, hev⟩ := List.mem_filter.1 he
    obtain ⟨k, ⟨x, b⟩⟩ := e
    simp only [TypedMetricValue.hasValue] at hev
    simp only [Prod.mk.injEq] at heq
    subst hev
    rw [← heq.1, ← heq.2]
    exact findEntry_of_mem k _ c.metrics_ hc hel
  · intro hf
    exact List.mem_map.2 ⟨(n, { value_ := v, valid_ := true }),
      List.mem_filter.2 ⟨findEntry_mem n _ c.metrics_ hf, rfl⟩, rfl⟩

/-! ## C19 -/

/-- C19: two collectors with distinct keys that hold the same set of fresh
(name, value) pairs write the same entries in the same order, so for the
same timestamp, open result and file a flush leaves the same file, whatever
the orders of the two maps and whatever stale entries they hold. Two
records on different names, made in either order, give the same file at
the next flush. -/
theorem line_body_function_of_fresh_pairs (P : Platform) :
    (∀ c₁ c₂ : MetricsCollector, c₁.WF → c₂.WF →
      (∀ p, p ∈ freshPairs c₁ ↔ p ∈ freshPairs c₂) →
      sortByName (snapshotLoop c₁.metrics_).1 = sortByName (snapshotLoop c₂.metrics_).1 ∧
      writeEntries P (sortByName (snapshotLoop c₁.metrics_).1) =
        writeEntries P (sortByName (snapshotLoop c₂.metrics_).1) ∧
      ∀ (env : FlushEnv) (file : Option String),
        (c₁.flushToFile P env file).2 = (c₂.flushToFile P env file).2) ∧
    (∀ (c : MetricsCollector) (n₁ n₂ : String) (v₁ v₂ : Payload), c.WF → n₁ ≠ n₂ →
      ∀ (env : FlushEnv) (file : Option String),
        (((c.record n₁ v₁).2.record n₂ v₂).2.flushToFile P env file).2 =
          (((c.record n₂ v₂).2.record n₁ v₁).2.flushToFile P env file).2) := by
  constructor
  · intro c₁ c₂ h₁ h₂ h
    have hs := sortByName_congr _ _ (snapshot_names_nodup c₂ h₂)
      (snapshot_perm_of_same_fresh c₁ c₂ h₁ h₂ h)
    exact ⟨hs, by rw [hs], flush_file_of_same_fresh P c₁ c₂ h₁ h₂ h⟩
  · intro c n₁ n₂ v₁ v₂ hc hn env file
    have w12 := MetricsCollector.record_WF _ n₂ v₂ (MetricsCollector.record_WF c n₁ v₁ hc)
    have w21 := MetricsCollector.record_WF _ n₁ v₁ (MetricsCollector.record_WF c n₂ v₂ hc)
    apply flush_file_of_same_fresh P _ _ w12 w21
    rintro ⟨n, v⟩
    rw [mem_freshPairs_iff _ w12, mem_freshPairs_iff _ w21,
      record_record_find_comm c n₁ n₂ v₁ v₂ hn n]

theorem line_body_function_of_fresh_pairs_witness :
    ((⟨[("b", ⟨.int 2, true⟩), ("z", ⟨.string "old", false⟩), ("a", ⟨.int 1, true⟩)]⟩ :
        MetricsCollector).flushToFile ⟨fun _ => "", 1⟩ ⟨true, "T"⟩ none).2 =
      ((⟨[("a", ⟨.int 1, true⟩), ("b", ⟨.int 2, true⟩), ("q", ⟨.int 9, false⟩)]⟩ :
        MetricsCollector).flushToFile ⟨fun _ => "", 1⟩ ⟨true, "T"⟩ none).2 ∧
    ((((⟨[("z", ⟨.int 0, false⟩)]⟩ : MetricsCollector).record "b" (.int 2)).2.record
        "a" (.int 1)).2.flushToFile ⟨fun _ => "", 1⟩ ⟨true, "T"⟩ none).2 =
      ((((⟨[("z", ⟨.int 0, false⟩)]⟩ : MetricsCollector).record "a" (.int 1)).2.record
        "b" (.int 2)).2.flushToFile ⟨fun _ => "", 1⟩ ⟨true, "T"⟩ none).2 :=
  ⟨((line_body_function_of_fresh_pairs ⟨fun _ => "", 1⟩).1
      ⟨[("b", ⟨.int 2, true⟩), ("z", ⟨.string "old", false⟩), ("a", ⟨.int 1, true⟩)]⟩
      ⟨[("a", ⟨.int 1, true⟩), ("b", ⟨.int 2, true⟩), ("q", ⟨.int 9, false⟩)]⟩
      (by decide) (by decide)
      (by intro p; simp [freshPairs, TypedMetricValue.hasValue]; tauto)).2.2
      ⟨true, "T"⟩ none,
   (line_body_function_of_fresh_pairs ⟨fun _ => "", 1⟩).2 ⟨[("z", ⟨.int 0, false⟩)]⟩
      "b" "a" (.int 2) (.int 1) (by decide) (by decide) ⟨true, "T"⟩ none⟩

/-! ## C15 -/

/-- C15, the locks of the code: `MetricsCollector::record` takes only the
collector's mutex, and that mutex is held during no file access of a
flush. `AsyncMetricsWriter::record` also takes the writer's mutex, and the
pass of `run()` that flushes holds the writer's mutex during every file
access of `flushToFile`: a producer inside `AsyncMetricsWriter::record`
can be kept waiting until the line is written. -/
theorem writer_mutex_held_during_file_access :
    locksTaken MetricsCollector.recordSteps = [Mutex.collector] ∧
    locksTaken AsyncMetricsWriter.recordSteps = [Mutex.collector, Mutex.writer] ∧
    (∀ p ∈ heldDuring [] (MetricsCollector.flushSteps true true),
      p.1 = Step.fileAccess → p.2 = []) ∧
    (∀ p ∈ heldDuring [] (AsyncMetricsWriter.iterationSteps true true true),
      p.1 = Step.fileAccess → p.2 = [Mutex.writer]) ∧
    (heldDuring [] (AsyncMetricsWriter.iterationSteps true true true)).count
      (Step.fileAccess, [Mutex.writer]) = 4 ∧
    (∀ p ∈ heldDuring [] (AsyncMetricsWriter.iterationSteps true true true),
      p.1 = Step.waitOn Mutex.writer → p.2 = []) := by
  refine ⟨?_, ?_, ?_, ?_, ?_, ?_⟩ <;> decide

end Metrics
